import Mathlib

/-!
# HD44780 character LCD driver in 4-bit mode (`weber-code/lcd/lcd-test.c`)

A shallow embedding of the bit-banged LCD driver.  The microcontroller is a record of the
four I/O registers the driver stores to, the values its loads of `PIND` will return, and the
chronological log of every register store, `PIND` load and busy-wait delay.  Each C function
is a state transformer on that record; the build option `USE_BUSY_FLAG` is a `Bool` argument.
-/

namespace LCD

/-! ## Machine model -/

/-- The I/O registers the driver stores to. -/
inductive Reg where
  | PORTB
  | PORTD
  | DDRB
  | DDRD
  deriving DecidableEq, Repr

/-- One externally visible step of the program. -/
inductive Event where
  /-- A store to an I/O register; `v` is the byte stored. -/
  | write (r : Reg) (v : Nat)
  /-- A load of `PIND` that returned `v`. -/
  | read (v : Nat)
  /-- A busy-wait of `us` microseconds (`_delay_us`, `_delay_ms`). -/
  | delay (us : Nat)
  deriving DecidableEq, Repr

/-- State of the microcontroller: output and direction registers of ports B and D, the bytes
that the coming loads of `PIND` return (the display's answers), and the log of steps so far,
oldest first. -/
structure MCU where
  PORTB : Nat
  PORTD : Nat
  DDRB : Nat
  DDRD : Nat
  PIND : List Nat
  trace : List Event
  deriving DecidableEq, Repr

/-- Why a run did not return. -/
inductive Stop where
  /-- The busy flag was still set when the supplied `PIND` answers ran out. -/
  | busy
  /-- A string was read to the end of the modelled memory without meeting a zero byte. -/
  | overrun
  deriving DecidableEq, Repr

/-- Outcome of a driver function: `ok m` when it returns in state `m`, `error (why, m)` when it
does not return, with the state reached. -/
abbrev Run := Except (Stop × MCU) MCU

/-- The state a run ends in, returned or not. -/
def Run.state : Run → MCU
  | .ok m => m
  | .error (_, m) => m

/-- Store `v` to `PORTB`. -/
def setPORTB (v : Nat) (m : MCU) : MCU :=
  { m with PORTB := v, trace := m.trace ++ [Event.write Reg.PORTB v] }

/-- Store `v` to `PORTD`. -/
def setPORTD (v : Nat) (m : MCU) : MCU :=
  { m with PORTD := v, trace := m.trace ++ [Event.write Reg.PORTD v] }

/-- Store `v` to `DDRB`. -/
def setDDRB (v : Nat) (m : MCU) : MCU :=
  { m with DDRB := v, trace := m.trace ++ [Event.write Reg.DDRB v] }

/-- Store `v` to `DDRD`. -/
def setDDRD (v : Nat) (m : MCU) : MCU :=
  { m with DDRD := v, trace := m.trace ++ [Event.write Reg.DDRD v] }

/-- The avr-libc busy-wait `_delay_us(n)`. -/
def _delay_us (n : Nat) (m : MCU) : MCU :=
  { m with trace := m.trace ++ [Event.delay n] }

/-- The avr-libc busy-wait `_delay_ms(n)`. -/
def _delay_ms (n : Nat) (m : MCU) : MCU :=
  { m with trace := m.trace ++ [Event.delay (1000 * n)] }

/-- The C expression `~mask` as far as it matters in `REG &= ~mask`, where the result is
stored to an 8-bit register: the complement within a byte. -/
def compl8 (mask : Nat) : Nat := 0xFF ^^^ mask

/-- Value of a C `char` (signed on AVR) holding the byte `b`. -/
def toSChar (b : Nat) : Int :=
  if b % 256 < 128 then (b % 256 : Nat) else ((b % 256 : Nat) : Int) - 256

/-- Conversion of an integer to `unsigned char`. -/
def toUChar (i : Int) : Nat := (i % 256).toNat

/-! ## Constants of the source -/

/-- Modelled from the spec: bit number of `PB4` from `<avr/io.h>`, a header that is not among
the sources; the spec and the header comment of the file give Register-Select as PORTB bit 4
(0x10). -/
def PB4 : Nat := 4

/-- Modelled from the spec: bit number of `PB3` from `<avr/io.h>`; Read/Write is PORTB bit 3
(0x08). -/
def PB3 : Nat := 3

/-- Modelled from the spec: bit number of `PB2` from `<avr/io.h>`; Enable is PORTB bit 2
(0x04). -/
def PB2 : Nat := 2

def LCD_RS : Nat := 1 <<< PB4
def LCD_RW : Nat := 1 <<< PB3
def LCD_E : Nat := 1 <<< PB2
def LCD_Bits : Nat := LCD_RS ||| LCD_RW ||| LCD_E

/-- Bits in Port D for LCD data. -/
def LCD_Data_D : Nat := 0xf0

/-- Bit in Port D for LCD busy status. -/
def LCD_Status : Nat := 0x80

/-- Bytes of a C string literal, with the terminating zero byte the compiler appends. -/
def cstr (s : String) : List Nat := s.toList.map Char.toNat ++ [0]

def str1 : List Nat := cstr ">> at328-5.c  <<78901234"
def str2 : List Nat := cstr ">> USC EE459L <<78901234"

/-! ## The driver -/

/-- Output a 4-bit nibble (the high four bits of `x`) to the LCD. -/
def lcd_writenibble (x : Nat) (m : MCU) : MCU :=
  let m := setPORTD (m.PORTD &&& compl8 LCD_Data_D) m
  let m := setPORTD (m.PORTD ||| (x &&& LCD_Data_D)) m
  let m := setPORTB (m.PORTB &&& compl8 (LCD_RW ||| LCD_E)) m
  let m := setPORTB (m.PORTB ||| LCD_E) m
  let m := setPORTB (m.PORTB ||| LCD_E) m
  setPORTB (m.PORTB &&& compl8 LCD_E) m

/-- Output a byte to the LCD; the second argument `x << 4` is converted to `unsigned char`. -/
def lcd_writebyte (x : Nat) (m : MCU) : MCU :=
  let m := lcd_writenibble x m
  lcd_writenibble ((x <<< 4) % 256) m

/-- One pass through the body of the `do ... while (bf != 0)` loop of `lcd_wait`, in which
the load of `PIND` returns `v` and leaves the answers `pind` pending. -/
def lcd_wait_body (v : Nat) (pind : List Nat) (m : MCU) : MCU :=
  let m := setPORTB (m.PORTB ||| LCD_E) m
  let m := _delay_us 1 m
  let m := { m with PIND := pind, trace := m.trace ++ [Event.read v] }
  let m := setPORTB (m.PORTB &&& compl8 LCD_E) m
  let m := setPORTB (m.PORTB ||| LCD_E) m
  setPORTB (m.PORTB &&& compl8 LCD_E) m

/-- The `do ... while (bf != 0)` loop of `lcd_wait`, by recursion on the pending `PIND`
answers; `bf = PIND & LCD_Status` is taken from the answer `v` of the pass.  When the
answers run out the run stops at the load that has no answer. -/
def lcd_wait_loop : List Nat → MCU → Run
  | [], m =>
    let m := setPORTB (m.PORTB ||| LCD_E) m
    let m := _delay_us 1 m
    .error (Stop.busy, m)
  | v :: pind, m =>
    let bf := v &&& LCD_Status
    let m := lcd_wait_body v pind m
    if bf ≠ 0 then lcd_wait_loop pind m else .ok m

/-- Wait for the BUSY flag to reset (`useBusyFlag = true`, the build with `USE_BUSY_FLAG`
defined) or for 2 ms (`useBusyFlag = false`). -/
def lcd_wait (useBusyFlag : Bool) (m : MCU) : Run :=
  if useBusyFlag then
    let m := setPORTD (m.PORTD &&& compl8 LCD_Data_D) m
    let m := setDDRD (m.DDRD &&& compl8 LCD_Data_D) m
    let m := setPORTB (m.PORTB &&& compl8 (LCD_E ||| LCD_RS)) m
    let m := setPORTB (m.PORTB ||| LCD_RW) m
    (lcd_wait_loop m.PIND m).bind fun m =>
    .ok (setDDRD (m.DDRD ||| LCD_Data_D) m)
  else
    .ok (_delay_ms 2 m)

/-- Output a byte to the LCD command register. -/
def lcd_writecommand (useBusyFlag : Bool) (x : Nat) (m : MCU) : Run :=
  let m := setPORTB (m.PORTB &&& compl8 LCD_RS) m
  let m := lcd_writebyte x m
  lcd_wait useBusyFlag m

/-- Output a byte to the LCD data register. -/
def lcd_writedata (useBusyFlag : Bool) (x : Nat) (m : MCU) : Run :=
  let m := setPORTB (m.PORTB ||| LCD_RS) m
  let m := lcd_writebyte x m
  lcd_wait useBusyFlag m

/-- Print the string stored at `s` in ROM: `s` lists the bytes of program memory from the
pointer on, each fetched with `pgm_read_byte` into an `unsigned char`. -/
def lcd_stringout_P (useBusyFlag : Bool) : List Nat → MCU → Run
  | [], m => .error (Stop.overrun, m)
  | ch :: s, m =>
    if ch ≠ 0 then
      (lcd_writedata useBusyFlag ch m).bind (lcd_stringout_P useBusyFlag s)
    else .ok m

/-- Force an initialization of the LCD display by instructions, then set up the display
parameters and turn the display on. -/
def lcd_init (useBusyFlag : Bool) (m : MCU) : Run :=
  let m := setDDRD (m.DDRD ||| LCD_Data_D) m
  let m := setDDRB (m.DDRB ||| LCD_Bits) m
  let m := setPORTB (m.PORTB &&& compl8 LCD_RS) m
  let m := _delay_ms 15 m
  let m := lcd_writenibble 0x30 m
  let m := _delay_ms 5 m
  let m := lcd_writenibble 0x30 m
  let m := _delay_us 120 m
  let m := lcd_writenibble 0x30 m
  let m := _delay_ms 2 m
  let m := lcd_writenibble 0x20 m
  let m := _delay_ms 2 m
  (lcd_writecommand useBusyFlag 0x28 m).bind fun m =>
  lcd_writecommand useBusyFlag 0x0f m

/-- Move the cursor to the row and column given by the arguments; `pos` is an
`unsigned char`. -/
def lcd_moveto (useBusyFlag : Bool) (row col : Nat) (m : MCU) : Run :=
  let pos := (row * 0x40 + col) % 256
  lcd_writecommand useBusyFlag (0x80 ||| pos) m

/-- Print the string at `str` in RAM at the current cursor position: `str` lists the bytes of
memory from the pointer on, each held in a `char` and converted to `unsigned char` when passed
to `lcd_writedata`. -/
def lcd_stringout (useBusyFlag : Bool) : List Nat → MCU → Run
  | [], m => .error (Stop.overrun, m)
  | b :: str, m =>
    let ch : Int := toSChar b
    if ch ≠ 0 then
      (lcd_writedata useBusyFlag (toUChar ch) m).bind (lcd_stringout useBusyFlag str)
    else .ok m

/-- The program up to its idle loop `while (1) {}`. -/
def main (useBusyFlag : Bool) (m : MCU) : Run :=
  (lcd_init useBusyFlag m).bind fun m =>
  (lcd_moveto useBusyFlag 0 0 m).bind fun m =>
  (lcd_stringout_P useBusyFlag str1 m).bind fun m =>
  (lcd_moveto useBusyFlag 1 0 m).bind fun m =>
  lcd_stringout_P useBusyFlag str2 m

/-! ## What the display sees

The display watches the control lines RS, R/W, E on port B and the data lines on port D.  A
logic probe replays a log of steps from given register contents and reports the Enable pulses,
the waits and the status samples, in the order they happen. -/

/-- Levels of Register-Select, Read/Write and of the data lines `PORTD[7:4]` (as a number
0..15) at one moment. -/
structure Snap where
  rs : Bool
  rw : Bool
  data : Nat
  deriving DecidableEq, Repr

/-- Enable level in a value of `PORTB`. -/
def enable (pb : Nat) : Bool := pb &&& LCD_E != 0

/-- Register-Select level in a value of `PORTB`. -/
def regsel (pb : Nat) : Bool := pb &&& LCD_RS != 0

/-- Read/Write level in a value of `PORTB`. -/
def readwrite (pb : Nat) : Bool := pb &&& LCD_RW != 0

/-- The number on the data lines in a value of `PORTD`. -/
def datalines (pd : Nat) : Nat := (pd &&& LCD_Data_D) >>> 4

/-- Line levels for given contents of `PORTB` and `PORTD`. -/
def snap (pb pd : Nat) : Snap := ⟨regsel pb, readwrite pb, datalines pd⟩

/-- What the probe reports. -/
inductive Item where
  /-- One Enable pulse, a rise followed by a fall: the line levels after each store to
  `PORTB` or `PORTD` made while Enable was high, the store that raised Enable first.  A fall
  of an Enable line that was already high when the log began is not a pulse. -/
  | pulse (high : List Snap)
  /-- A busy-wait of `us` microseconds. -/
  | wait (us : Nat)
  /-- A load of `PIND` that returned `v`. -/
  | sample (v : Nat)
  deriving DecidableEq, Repr

/-- State of the probe: current contents of the two ports, the levels collected for the pulse
in progress (`none` while no rise of Enable is pending), and the report so far. -/
structure Probe where
  PORTB : Nat
  PORTD : Nat
  high : Option (List Snap)
  out : List Item
  deriving DecidableEq, Repr

/-- The probe follows one step of the program. -/
def Probe.step (p : Probe) : Event → Probe
  | Event.write Reg.PORTB v =>
    if enable v then
      match p.high with
      | some hs => { p with PORTB := v, high := some (hs ++ [snap v p.PORTD]) }
      | none =>
        if enable p.PORTB then { p with PORTB := v }
        else { p with PORTB := v, high := some [snap v p.PORTD] }
    else
      match p.high with
      | some hs => { p with PORTB := v, high := none, out := p.out ++ [Item.pulse hs] }
      | none => { p with PORTB := v }
  | Event.write Reg.PORTD v =>
    match p.high with
    | some hs => { p with PORTD := v, high := some (hs ++ [snap p.PORTB v]) }
    | none => { p with PORTD := v }
  | Event.write _ _ => p
  | Event.read v => { p with out := p.out ++ [Item.sample v] }
  | Event.delay us => { p with out := p.out ++ [Item.wait us] }

/-- The probe's report on the steps `evs` made from the register contents of `m`. -/
def observe (m : MCU) (evs : List Event) : List Item :=
  (evs.foldl Probe.step ⟨m.PORTB, m.PORTD, none, []⟩).out

/-- The steps logged in `m2` after those already logged in `m`. -/
def since (m m2 : MCU) : List Event := m2.trace.drop m.trace.length

/-- The Enable pulses among reported items. -/
def pulsesOf (items : List Item) : List (List Snap) :=
  items.filterMap fun it => match it with
    | Item.pulse hs => some hs
    | _ => none

/-- The Enable pulse of a nibble write: two stores with Enable high, R/W low, Register-Select
at `rs` and `d` on the data lines. -/
def nib (rs : Bool) (d : Nat) : Item := Item.pulse [⟨rs, false, d⟩, ⟨rs, false, d⟩]

/-- Report of one command (`rs = false`) or data (`rs = true`) byte `x` in the fixed-delay
build: high nibble, low nibble, 2 ms settling wait. -/
def byteItems (rs : Bool) (x : Nat) : List Item :=
  [nib rs (x >>> 4), nib rs (x &&& 0x0F), Item.wait 2000]

/-- The registers right after power-on reset, nothing logged, no `PIND` answers. -/
def reset : MCU := ⟨0, 0, 0, 0, [], []⟩

/-- The bytes stored to `PORTB` among the steps `evs`, in order. -/
def portbWrites (evs : List Event) : List Nat :=
  evs.filterMap fun e => match e with
    | Event.write Reg.PORTB v => some v
    | _ => none

/-- The bytes stored to `PORTD` among the steps `evs`, in order. -/
def portdWrites (evs : List Event) : List Nat :=
  evs.filterMap fun e => match e with
    | Event.write Reg.PORTD v => some v
    | _ => none

/-- Drop the values of `PORTB` that precede the first rise of Enable; `prev` is the value
before the list. -/
def fromRise (prev : Nat) : List Nat → List Nat
  | [] => []
  | v :: vs => if enable v && !enable prev then v :: vs else fromRise v vs

/-- Keep the values of `PORTB` up to and including the `n`-th fall of Enable; `prev` is the
value before the list. -/
def throughFalls : Nat → Nat → List Nat → List Nat
  | 0, _, _ => []
  | _ + 1, _, [] => []
  | n + 1, prev, v :: vs =>
    if enable prev && !enable v then v :: throughFalls n v vs
    else v :: throughFalls (n + 1) v vs

/-- The values of `PORTB` from the first rise of Enable to the `n`-th fall of Enable after it,
both included, among the values `vs` stored from contents `pb` on. -/
def enableSpan (n : Nat) (pb : Nat) (vs : List Nat) : List Nat :=
  match fromRise pb vs with
  | [] => []
  | v :: rest => v :: throughFalls n v rest

/-- The operations of the driver, with their arguments. -/
inductive Op where
  | lcd_init
  | lcd_moveto (row col : Nat)
  | lcd_stringout (str : List Nat)
  | lcd_stringout_P (s : List Nat)
  | lcd_writecommand (x : Nat)
  | lcd_writedata (x : Nat)
  | lcd_writebyte (x : Nat)
  | lcd_writenibble (x : Nat)
  | lcd_wait
  deriving DecidableEq, Repr

/-- Run one operation of the driver in the given build. -/
def Op.run (useBusyFlag : Bool) : Op → MCU → Run
  | Op.lcd_init, m => LCD.lcd_init useBusyFlag m
  | Op.lcd_moveto row col, m => LCD.lcd_moveto useBusyFlag row col m
  | Op.lcd_stringout str, m => LCD.lcd_stringout useBusyFlag str m
  | Op.lcd_stringout_P s, m => LCD.lcd_stringout_P useBusyFlag s m
  | Op.lcd_writecommand x, m => LCD.lcd_writecommand useBusyFlag x m
  | Op.lcd_writedata x, m => LCD.lcd_writedata useBusyFlag x m
  | Op.lcd_writebyte x, m => .ok (LCD.lcd_writebyte x m)
  | Op.lcd_writenibble x, m => .ok (LCD.lcd_writenibble x m)
  | Op.lcd_wait, m => LCD.lcd_wait useBusyFlag m

/-- From `m` to `m2` the program logged only steps satisfying `P`, and `I` holds of `m2`. -/
def Keeps (I : MCU → Prop) (P : Event → Prop) (m m2 : MCU) : Prop :=
  I m2 ∧ ∃ evs, m2.trace = m.trace ++ evs ∧ ∀ e ∈ evs, P e

/-- Each store, load and wait statement of the source, run from a state satisfying `I`, logs
a step satisfying `P` and leads to a state satisfying `I`.  The last four statements occur
only in the `USE_BUSY_FLAG` branch of `lcd_wait`. -/
structure StepRules (useBusyFlag : Bool) (I : MCU → Prop) (P : Event → Prop) : Prop where
  portb_clear_rs : ∀ m, I m → Keeps I P m (setPORTB (m.PORTB &&& compl8 LCD_RS) m)
  portb_set_rs : ∀ m, I m → Keeps I P m (setPORTB (m.PORTB ||| LCD_RS) m)
  portb_clear_rw_e : ∀ m, I m → Keeps I P m (setPORTB (m.PORTB &&& compl8 (LCD_RW ||| LCD_E)) m)
  portb_set_e : ∀ m, I m → Keeps I P m (setPORTB (m.PORTB ||| LCD_E) m)
  portb_clear_e : ∀ m, I m → Keeps I P m (setPORTB (m.PORTB &&& compl8 LCD_E) m)
  portd_clear : ∀ m, I m → Keeps I P m (setPORTD (m.PORTD &&& compl8 LCD_Data_D) m)
  portd_set : ∀ x m, I m → Keeps I P m (setPORTD (m.PORTD ||| (x &&& LCD_Data_D)) m)
  ddrd_set : ∀ m, I m → Keeps I P m (setDDRD (m.DDRD ||| LCD_Data_D) m)
  ddrb_set : ∀ m, I m → Keeps I P m (setDDRB (m.DDRB ||| LCD_Bits) m)
  delay_us : ∀ n m, I m → Keeps I P m (_delay_us n m)
  delay_ms : ∀ n m, I m → Keeps I P m (_delay_ms n m)
  portb_clear_e_rs : useBusyFlag = true →
    ∀ m, I m → Keeps I P m (setPORTB (m.PORTB &&& compl8 (LCD_E ||| LCD_RS)) m)
  portb_set_rw : useBusyFlag = true → ∀ m, I m → Keeps I P m (setPORTB (m.PORTB ||| LCD_RW) m)
  ddrd_clear : useBusyFlag = true →
    ∀ m, I m → Keeps I P m (setDDRD (m.DDRD &&& compl8 LCD_Data_D) m)
  pind_read : useBusyFlag = true → ∀ v pind m, I m →
    Keeps I P m { m with PIND := pind, trace := m.trace ++ [Event.read v] }

/-- The bytes `a` and `b` are equal on every bit outside `mask`. -/
def agree (mask a b : Nat) : Prop := a &&& compl8 mask = b &&& compl8 mask

/-- The registers of `m` agree with those of `m0` on every bit the driver does not own:
`PORTB` and `DDRB` outside RS, R/W, E (mask 0x1C), `PORTD` and `DDRD` on bits 0-3. -/
def FrameState (m0 m : MCU) : Prop :=
  agree LCD_Bits m.PORTB m0.PORTB ∧ agree LCD_Data_D m.PORTD m0.PORTD ∧
  agree LCD_Bits m.DDRB m0.DDRB ∧ agree LCD_Data_D m.DDRD m0.DDRD

/-- A store writes a byte that agrees with the register's contents in `m0` on every bit the
driver does not own. -/
def FrameStep (m0 : MCU) : Event → Prop
  | Event.write Reg.PORTB v => agree LCD_Bits v m0.PORTB
  | Event.write Reg.PORTD v => agree LCD_Data_D v m0.PORTD
  | Event.write Reg.DDRB v => agree LCD_Bits v m0.DDRB
  | Event.write Reg.DDRD v => agree LCD_Data_D v m0.DDRD
  | _ => True

/-- From `m` to `m2` the program logged steps on which the probe, started with no pulse
pending, reports `items` and ends with no pulse pending. -/
def Sees (m m2 : MCU) (items : List Item) : Prop :=
  ∃ evs, m2.trace = m.trace ++ evs ∧
    ∀ out, evs.foldl Probe.step ⟨m.PORTB, m.PORTD, none, out⟩
      = ⟨m2.PORTB, m2.PORTD, none, out ++ items⟩

/-- The run `r` returns, and from `m` to the state it returns in the probe reports `items`. -/
def SeesR (m : MCU) (r : Run) (items : List Item) : Prop :=
  ∃ m2, r = .ok m2 ∧ Sees m m2 items

/-- The characters of a zero-terminated string: the bytes before its first zero byte. -/
def text (s : List Nat) : List Nat := s.takeWhile (fun b => b != 0)

/-- One transfer to the display: a single nibble with Register-Select low (used while the
display is still in 8-bit mode), a command byte (Register-Select low) or a data byte
(Register-Select high), each byte sent as two nibbles, high nibble first. -/
inductive Transfer where
  | nibble (v : Nat)
  | command (x : Nat)
  | data (x : Nat)
  deriving DecidableEq, Repr

/-- The Enable pulses that latch a transfer. -/
def Transfer.pulses : Transfer → List (List Snap)
  | Transfer.nibble v => pulsesOf [nib false v]
  | Transfer.command x => pulsesOf (byteItems false x)
  | Transfer.data x => pulsesOf (byteItems true x)

/-- The sequence of transfers of the end-to-end scenario as the specification states it, with
one data write for each of the 25 bytes of either string array. -/
def scenarioAsStated : List Transfer :=
  [Transfer.nibble 3, Transfer.nibble 3, Transfer.nibble 3, Transfer.nibble 2,
   Transfer.command 0x28, Transfer.command 0x0F, Transfer.command 0x80]
  ++ str1.map Transfer.data ++ [Transfer.command 0xC0] ++ str2.map Transfer.data

/-- The sequence of transfers of the end-to-end scenario with one data write for each of the
24 characters of either string. -/
def scenario : List Transfer :=
  [Transfer.nibble 3, Transfer.nibble 3, Transfer.nibble 3, Transfer.nibble 2,
   Transfer.command 0x28, Transfer.command 0x0F, Transfer.command 0x80]
  ++ (text str1).map Transfer.data ++ [Transfer.command 0xC0] ++ (text str2).map Transfer.data

/-- Read/Write is low in the contents of `PORTB`. -/
def RWLow (m : MCU) : Prop := readwrite m.PORTB = false

/-- A store to `PORTB` writes a byte with Read/Write low. -/
def RWLowStep : Event → Prop
  | Event.write Reg.PORTB v => readwrite v = false
  | _ => True

/-- The numbers the display latches, one per Enable pulse: the data lines at the last store
made while Enable was high, the levels that stand when Enable falls. -/
def latched (items : List Item) : List Nat :=
  (pulsesOf items).filterMap fun hs => hs.getLast?.map Snap.data

/-- Command/Data dispatch: `lcd_writedata` when `rs` is true, `lcd_writecommand` when it is
false. -/
def dispatch (useBusyFlag : Bool) (rs : Bool) (x : Nat) (m : MCU) : Run :=
  if rs then lcd_writedata useBusyFlag x m else lcd_writecommand useBusyFlag x m

/-- The byte the dispatch stores to `PORTB` to select the register: Register-Select set for
data, cleared for a command. -/
def selectStore (rs : Bool) (pb : Nat) : Nat :=
  if rs then pb ||| LCD_RS else pb &&& compl8 LCD_RS

/-- The steps of one dispatch in the fixed-delay build, from contents `pb` of `PORTB` and `pd`
of `PORTD`: the store that selects the register, the twelve stores of the byte transfer of
`x`, the settling wait of 2 ms. -/
def dispatchSteps (rs : Bool) (x pb pd : Nat) : List Event :=
  [Event.write Reg.PORTB (selectStore rs pb),
   Event.write Reg.PORTD (pd &&& 0x0F),
   Event.write Reg.PORTD ((pd &&& 0x0F) ||| (x &&& 0xF0)),
   Event.write Reg.PORTB (selectStore rs pb &&& 0xF3),
   Event.write Reg.PORTB ((selectStore rs pb &&& 0xF3) ||| 0x04),
   Event.write Reg.PORTB ((selectStore rs pb &&& 0xF3) ||| 0x04),
   Event.write Reg.PORTB (selectStore rs pb &&& 0xF3),
   Event.write Reg.PORTD (pd &&& 0x0F),
   Event.write Reg.PORTD ((pd &&& 0x0F) ||| ((x <<< 4) % 256 &&& 0xF0)),
   Event.write Reg.PORTB (selectStore rs pb &&& 0xF3),
   Event.write Reg.PORTB ((selectStore rs pb &&& 0xF3) ||| 0x04),
   Event.write Reg.PORTB ((selectStore rs pb &&& 0xF3) ||| 0x04),
   Event.write Reg.PORTB (selectStore rs pb &&& 0xF3),
   Event.delay 2000]

/-- The registers that decide who drives the data bus: the control lines in `PORTB` and the
direction of the data pins in `DDRD`. -/
structure Bus where
  PORTB : Nat
  DDRD : Nat
  deriving DecidableEq, Repr

/-- The bus registers of a state. -/
def MCU.bus (m : MCU) : Bus := ⟨m.PORTB, m.DDRD⟩

/-- Effect of one step of the program on the bus registers. -/
def Bus.step (b : Bus) : Event → Bus
  | Event.write Reg.PORTB v => { b with PORTB := v }
  | Event.write Reg.DDRD v => { b with DDRD := v }
  | _ => b

/-- The bus registers after each of the steps `evs`, made from `b`: every state reached. -/
def busStates (b : Bus) : List Event → List Bus
  | [] => []
  | e :: es => b.step e :: busStates (b.step e) es

/-- Bus contention: Enable is high while Read/Write is high, so that the display drives the
data lines, and some data pin of port D is configured as an output. -/
def contention (b : Bus) : Bool :=
  enable b.PORTB && readwrite b.PORTB && (b.DDRD &&& LCD_Data_D != 0)

/-- No bus contention. -/
def Calm (b : Bus) : Prop := contention b = false

/-- While Enable is high the data pins `DDRD[7:4]` are all inputs. -/
def Quiet (b : Bus) : Prop := enable b.PORTB = true → b.DDRD &&& LCD_Data_D = 0

/-- From `m` to `m2` the program logged steps after each of which the bus registers satisfy
`Q`; they end as the bus registers of `m2`, which satisfy `Q` too. -/
def Through (Q : Bus → Prop) (m m2 : MCU) : Prop :=
  Q m2.bus ∧ ∃ evs, m2.trace = m.trace ++ evs ∧ evs.foldl Bus.step m.bus = m2.bus ∧
    ∀ s ∈ busStates m.bus evs, Q s

/-- Run operations of the driver one after the other. -/
def runAll (useBusyFlag : Bool) : List Op → MCU → Run
  | [], m => .ok m
  | op :: ops, m => (op.run useBusyFlag m).bind (runAll useBusyFlag ops)

/-! ## Bit-field arithmetic -/

theorem and_or_distrib_right (a b c : Nat) : (a ||| b) &&& c = (a &&& c) ||| (b &&& c) := by
  rw [Nat.and_comm, Nat.and_or_distrib_left, Nat.and_comm c a, Nat.and_comm c b]

theorem or_eq_zero_iff (a b : Nat) : a ||| b = 0 ↔ a = 0 ∧ b = 0 := by
  constructor
  · intro h
    have hb : ∀ i, a.testBit i = false ∧ b.testBit i = false := by
      intro i
      have h2 := congrArg (fun n => Nat.testBit n i) h
      simpa [Nat.testBit_or] using h2
    exact ⟨Nat.eq_of_testBit_eq (by simp [hb]), Nat.eq_of_testBit_eq (by simp [hb])⟩
  · rintro ⟨rfl, rfl⟩
    rfl

set_option maxRecDepth 100000 in
theorem hi_nibble_lt : ∀ x < 256, (x &&& 0xF0) >>> 4 = x >>> 4 := by decide

set_option maxRecDepth 100000 in
theorem lo_nibble_lt : ∀ x < 256, (((x <<< 4) % 256) &&& 0xF0) >>> 4 = x &&& 0x0F := by decide

set_option maxRecDepth 100000 in
theorem shl4_lt : ∀ x < 256, (x <<< 4) % 256 = (x &&& 0x0F) <<< 4 := by decide

theorem regsel_and_F3 (p : Nat) : regsel (p &&& 0xF3) = regsel p := by
  simp +ground [regsel, LCD_RS, PB4, Nat.and_assoc]

/-! ## Reports compose -/

theorem Sees.nothing (m : MCU) : Sees m m [] :=
  ⟨[], by simp, by simp⟩

theorem Sees.andThen {a b c : MCU} {i j : List Item} (h1 : Sees a b i) (h2 : Sees b c j) :
    Sees a c (i ++ j) := by
  obtain ⟨e1, ht1, hf1⟩ := h1
  obtain ⟨e2, ht2, hf2⟩ := h2
  refine ⟨e1 ++ e2, by rw [ht2, ht1, List.append_assoc], ?_⟩
  intro out
  rw [List.foldl_append, hf1, hf2, List.append_assoc]

theorem Sees.observe {m m2 : MCU} {items : List Item} (h : Sees m m2 items) :
    observe m (since m m2) = items := by
  obtain ⟨evs, ht, hf⟩ := h
  simp [LCD.observe, since, ht, hf]

theorem sees_delay_us (n : Nat) (m : MCU) : Sees m (_delay_us n m) [Item.wait n] :=
  ⟨[Event.delay n], rfl, fun _ => rfl⟩

theorem sees_delay_ms (n : Nat) (m : MCU) : Sees m (_delay_ms n m) [Item.wait (1000 * n)] :=
  ⟨[Event.delay (1000 * n)], rfl, fun _ => rfl⟩

theorem sees_setDDRB (v : Nat) (m : MCU) : Sees m (setDDRB v m) [] :=
  ⟨[Event.write Reg.DDRB v], rfl, fun _ => by simp [Probe.step, setDDRB]⟩

theorem sees_setDDRD (v : Nat) (m : MCU) : Sees m (setDDRD v m) [] :=
  ⟨[Event.write Reg.DDRD v], rfl, fun _ => by simp [Probe.step, setDDRD]⟩

theorem sees_setPORTD (v : Nat) (m : MCU) : Sees m (setPORTD v m) [] :=
  ⟨[Event.write Reg.PORTD v], rfl, fun _ => by simp [Probe.step, setPORTD]⟩

theorem sees_setPORTB (v : Nat) (m : MCU) (h : enable v = false) : Sees m (setPORTB v m) [] :=
  ⟨[Event.write Reg.PORTB v], rfl, fun _ => by simp [Probe.step, setPORTB, h]⟩

/-! ## Nibble and byte transport -/

theorem lcd_writenibble_PORTB (x : Nat) (m : MCU) :
    (lcd_writenibble x m).PORTB = m.PORTB &&& 0xF3 := by
  simp +ground [lcd_writenibble, setPORTB, setPORTD, compl8, LCD_RW, LCD_E, PB3, PB2,
    and_or_distrib_right, Nat.and_assoc]

theorem lcd_writenibble_PORTD (x : Nat) (m : MCU) :
    (lcd_writenibble x m).PORTD = (m.PORTD &&& 0x0F) ||| (x &&& 0xF0) := by
  simp +ground [lcd_writenibble, setPORTB, setPORTD, compl8, LCD_Data_D]

/-- The six stores of `lcd_writenibble`, with the stored bytes in closed form. -/
theorem lcd_writenibble_trace (x : Nat) (m : MCU) :
    (lcd_writenibble x m).trace = m.trace ++
      [Event.write Reg.PORTD (m.PORTD &&& 0x0F),
       Event.write Reg.PORTD ((m.PORTD &&& 0x0F) ||| (x &&& 0xF0)),
       Event.write Reg.PORTB (m.PORTB &&& 0xF3),
       Event.write Reg.PORTB ((m.PORTB &&& 0xF3) ||| 0x04),
       Event.write Reg.PORTB ((m.PORTB &&& 0xF3) ||| 0x04),
       Event.write Reg.PORTB (m.PORTB &&& 0xF3)] := by
  simp +ground [lcd_writenibble, setPORTB, setPORTD, compl8, LCD_Data_D, LCD_RW, LCD_E, PB3,
    PB2, and_or_distrib_right, Nat.and_assoc, Nat.or_assoc]

theorem sees_writenibble (x : Nat) (m : MCU) :
    Sees m (lcd_writenibble x m) [nib (regsel m.PORTB) ((x &&& 0xF0) >>> 4)] := by
  refine ⟨_, lcd_writenibble_trace x m, ?_⟩
  intro out
  simp +ground [Probe.step, enable, regsel, readwrite, datalines, snap, nib, LCD_E, LCD_RS,
    LCD_RW, LCD_Data_D, PB2, PB3, PB4, and_or_distrib_right, Nat.and_assoc,
    lcd_writenibble_PORTB, lcd_writenibble_PORTD]

theorem sees_writebyte (x : Nat) (hx : x < 256) (m : MCU) :
    Sees m (lcd_writebyte x m)
      [nib (regsel m.PORTB) (x >>> 4), nib (regsel m.PORTB) (x &&& 0x0F)] := by
  have h1 := sees_writenibble x m
  have h2 := sees_writenibble ((x <<< 4) % 256) (lcd_writenibble x m)
  rw [lcd_writenibble_PORTB, regsel_and_F3, lo_nibble_lt x hx] at h2
  rw [hi_nibble_lt x hx] at h1
  exact h1.andThen h2

/-- C2 (byte order).  For every byte `x` and every state, `lcd_writebyte x` makes exactly two
Enable pulses and nothing else the display can see: throughout the first pulse the data
lines `PORTD[7:4]` carry the high nibble `x >> 4`, throughout the second they carry the low
nibble `x & 0x0F`, which the function passes as `x << 4`, in the high position. -/
theorem lcd_writebyte_high_then_low (x : Nat) (hx : x < 256) (m : MCU) :
    lcd_writebyte x m = lcd_writenibble ((x &&& 0x0F) <<< 4) (lcd_writenibble x m) ∧
    observe m (since m (lcd_writebyte x m))
      = [nib (regsel m.PORTB) (x >>> 4), nib (regsel m.PORTB) (x &&& 0x0F)] ∧
    (pulsesOf (observe m (since m (lcd_writebyte x m)))).length = 2 := by
  have hs := (sees_writebyte x hx m).observe
  refine ⟨?_, hs, ?_⟩
  · simp only [lcd_writebyte, shl4_lt x hx]
  · rw [hs]; rfl

theorem lcd_writebyte_high_then_low_witness :
    (0xA5 : Nat) < 256 ∧
    observe reset (since reset (lcd_writebyte 0xA5 reset)) = [nib false 0xA, nib false 0x5] :=
  ⟨by decide, (lcd_writebyte_high_then_low 0xA5 (by decide) reset).2.1⟩

theorem since_of_trace {m m2 : MCU} {evs : List Event} (h : m2.trace = m.trace ++ evs) :
    since m m2 = evs := by
  simp [since, h]

/-- C3 (nibble correctness).  For every argument `x` (so for every 4-bit value, wherever it
sits in the byte) and every state: both stores `lcd_writenibble x` makes to `PORTD` leave
bits 0-3 as they were, the first clears the data lines and the second sets them to
`x & 0xF0`; throughout the Enable pulse and on return the data lines carry `x` masked to
the data-line positions, and bits 0-3 of `PORTD` are unchanged on return. -/
theorem lcd_writenibble_data_lines (x : Nat) (m : MCU) :
    (portdWrites (since m (lcd_writenibble x m))).map (· &&& compl8 LCD_Data_D)
      = [m.PORTD &&& compl8 LCD_Data_D, m.PORTD &&& compl8 LCD_Data_D] ∧
    (portdWrites (since m (lcd_writenibble x m))).map (· &&& LCD_Data_D)
      = [0, x &&& LCD_Data_D] ∧
    observe m (since m (lcd_writenibble x m))
      = [nib (regsel m.PORTB) ((x &&& LCD_Data_D) >>> 4)] ∧
    (lcd_writenibble x m).PORTD &&& LCD_Data_D = x &&& LCD_Data_D ∧
    (lcd_writenibble x m).PORTD &&& compl8 LCD_Data_D = m.PORTD &&& compl8 LCD_Data_D := by
  refine ⟨?_, ?_, (sees_writenibble x m).observe, ?_, ?_⟩
  · rw [since_of_trace (lcd_writenibble_trace x m)]
    simp +ground [portdWrites, compl8, LCD_Data_D, and_or_distrib_right, Nat.and_assoc]
  · rw [since_of_trace (lcd_writenibble_trace x m)]
    simp +ground [portdWrites, compl8, LCD_Data_D, and_or_distrib_right, Nat.and_assoc]
  · simp +ground [lcd_writenibble_PORTD, LCD_Data_D, and_or_distrib_right, Nat.and_assoc]
  · simp +ground [lcd_writenibble_PORTD, compl8, LCD_Data_D, and_or_distrib_right,
      Nat.and_assoc]

/-! ## Invariants of all operations -/

theorem Keeps.here {I : MCU → Prop} {P : Event → Prop} {m : MCU} (h : I m) : Keeps I P m m :=
  ⟨h, [], by simp, by simp⟩

theorem Keeps.next {I : MCU → Prop} {P : Event → Prop} {a b c : MCU}
    (h1 : Keeps I P a b) (h2 : Keeps I P b c) : Keeps I P a c := by
  obtain ⟨_, e1, ht1, hp1⟩ := h1
  obtain ⟨hc, e2, ht2, hp2⟩ := h2
  refine ⟨hc, e1 ++ e2, by rw [ht2, ht1, List.append_assoc], ?_⟩
  intro e he
  rcases List.mem_append.mp he with h | h
  · exact hp1 e h
  · exact hp2 e h

theorem Keeps.bindRun {I : MCU → Prop} {P : Event → Prop} {m : MCU} {r : Run} {g : MCU → Run}
    (h1 : Keeps I P m r.state) (h2 : ∀ m1, I m1 → Keeps I P m1 (g m1).state) :
    Keeps I P m (Run.state (r.bind g)) := by
  cases r with
  | error e => exact h1
  | ok m1 => exact h1.next (h2 m1 h1.1)

section rules

variable {useBusyFlag : Bool} {I : MCU → Prop} {P : Event → Prop}

theorem keeps_writenibble (R : StepRules useBusyFlag I P) (x : Nat) (m : MCU) (h : I m) :
    Keeps I P m (lcd_writenibble x m) := by
  have h1 := R.portd_clear m h
  have h2 := R.portd_set x _ h1.1
  have h3 := R.portb_clear_rw_e _ h2.1
  have h4 := R.portb_set_e _ h3.1
  have h5 := R.portb_set_e _ h4.1
  have h6 := R.portb_clear_e _ h5.1
  exact h1.next (h2.next (h3.next (h4.next (h5.next h6))))

theorem keeps_writebyte (R : StepRules useBusyFlag I P) (x : Nat) (m : MCU) (h : I m) :
    Keeps I P m (lcd_writebyte x m) := by
  have h1 := keeps_writenibble R x m h
  exact h1.next (keeps_writenibble R _ _ h1.1)

theorem keeps_wait_body (R : StepRules useBusyFlag I P) (hb : useBusyFlag = true)
    (v : Nat) (pind : List Nat) (m : MCU) (h : I m) :
    Keeps I P m (lcd_wait_body v pind m) := by
  have h1 := R.portb_set_e m h
  have h2 := R.delay_us 1 _ h1.1
  have h3 := R.pind_read hb v pind _ h2.1
  have h4 := R.portb_clear_e _ h3.1
  have h5 := R.portb_set_e _ h4.1
  have h6 := R.portb_clear_e _ h5.1
  exact h1.next (h2.next (h3.next (h4.next (h5.next h6))))

theorem keeps_wait_loop (R : StepRules useBusyFlag I P) (hb : useBusyFlag = true)
    (pind : List Nat) : ∀ m, I m → Keeps I P m (lcd_wait_loop pind m).state := by
  induction pind with
  | nil =>
    intro m h
    have h1 := R.portb_set_e m h
    exact h1.next (R.delay_us 1 _ h1.1)
  | cons v pind ih =>
    intro m h
    have h1 := keeps_wait_body R hb v pind m h
    unfold lcd_wait_loop
    dsimp only
    split
    · exact h1.next (ih _ h1.1)
    · exact h1

theorem keeps_wait (R : StepRules useBusyFlag I P) (m : MCU) (h : I m) :
    Keeps I P m (lcd_wait useBusyFlag m).state := by
  unfold lcd_wait
  split
  · rename_i hb
    have h1 := R.portd_clear m h
    have h2 := R.ddrd_clear hb _ h1.1
    have h3 := R.portb_clear_e_rs hb _ h2.1
    have h4 := R.portb_set_rw hb _ h3.1
    have h := h1.next (h2.next (h3.next h4))
    dsimp only
    refine Keeps.bindRun (h.next (keeps_wait_loop R hb _ _ h.1)) ?_
    intro m1 h1
    exact R.ddrd_set m1 h1
  · exact R.delay_ms 2 m h

theorem keeps_writecommand (R : StepRules useBusyFlag I P) (x : Nat) (m : MCU) (h : I m) :
    Keeps I P m (lcd_writecommand useBusyFlag x m).state := by
  have h1 := R.portb_clear_rs m h
  have h2 := keeps_writebyte R x _ h1.1
  exact h1.next (h2.next (keeps_wait R _ h2.1))

theorem keeps_writedata (R : StepRules useBusyFlag I P) (x : Nat) (m : MCU) (h : I m) :
    Keeps I P m (lcd_writedata useBusyFlag x m).state := by
  have h1 := R.portb_set_rs m h
  have h2 := keeps_writebyte R x _ h1.1
  exact h1.next (h2.next (keeps_wait R _ h2.1))

theorem keeps_stringout_P (R : StepRules useBusyFlag I P) (s : List Nat) :
    ∀ m, I m → Keeps I P m (lcd_stringout_P useBusyFlag s m).state := by
  induction s with
  | nil => intro m h; exact Keeps.here h
  | cons ch s ih =>
    intro m h
    unfold lcd_stringout_P
    split
    · exact Keeps.bindRun (keeps_writedata R ch m h) ih
    · exact Keeps.here h

theorem keeps_stringout (R : StepRules useBusyFlag I P) (str : List Nat) :
    ∀ m, I m → Keeps I P m (lcd_stringout useBusyFlag str m).state := by
  induction str with
  | nil => intro m h; exact Keeps.here h
  | cons b str ih =>
    intro m h
    unfold lcd_stringout
    dsimp only
    split
    · exact Keeps.bindRun (keeps_writedata R _ m h) ih
    · exact Keeps.here h

theorem keeps_moveto (R : StepRules useBusyFlag I P) (row col : Nat) (m : MCU) (h : I m) :
    Keeps I P m (lcd_moveto useBusyFlag row col m).state :=
  keeps_writecommand R _ m h

theorem keeps_init (R : StepRules useBusyFlag I P) (m : MCU) (h : I m) :
    Keeps I P m (lcd_init useBusyFlag m).state := by
  have h1 := R.ddrd_set m h
  have h2 := R.ddrb_set _ h1.1
  have h3 := R.portb_clear_rs _ h2.1
  have h4 := R.delay_ms 15 _ h3.1
  have h5 := keeps_writenibble R 0x30 _ h4.1
  have h6 := R.delay_ms 5 _ h5.1
  have h7 := keeps_writenibble R 0x30 _ h6.1
  have h8 := R.delay_us 120 _ h7.1
  have h9 := keeps_writenibble R 0x30 _ h8.1
  have h10 := R.delay_ms 2 _ h9.1
  have h11 := keeps_writenibble R 0x20 _ h10.1
  have h12 := R.delay_ms 2 _ h11.1
  have h := h1.next (h2.next (h3.next (h4.next (h5.next (h6.next (h7.next (h8.next
    (h9.next (h10.next (h11.next h12))))))))))
  refine Keeps.bindRun (h.next (keeps_writecommand R 0x28 _ h.1)) ?_
  intro m1 h1
  exact keeps_writecommand R 0x0f m1 h1

/-- Invariant rule: what every statement of the source keeps, every operation keeps, whether
it returns or not. -/
theorem keeps_op (R : StepRules useBusyFlag I P) (op : Op) (m : MCU) (h : I m) :
    Keeps I P m (op.run useBusyFlag m).state := by
  cases op with
  | lcd_init => exact keeps_init R m h
  | lcd_moveto row col => exact keeps_moveto R row col m h
  | lcd_stringout str => exact keeps_stringout R str m h
  | lcd_stringout_P s => exact keeps_stringout_P R s m h
  | lcd_writecommand x => exact keeps_writecommand R x m h
  | lcd_writedata x => exact keeps_writedata R x m h
  | lcd_writebyte x => exact keeps_writebyte R x m h
  | lcd_writenibble x => exact keeps_writenibble R x m h
  | lcd_wait => exact keeps_wait R m h

end rules

/-! ## Shared-port frame -/

theorem agree_and {mask k a b : Nat} (hk : compl8 k &&& compl8 mask = compl8 mask)
    (h : agree mask a b) : agree mask (a &&& compl8 k) b := by
  unfold agree at *
  rw [Nat.and_assoc, hk, h]

theorem agree_or {mask k a b : Nat} (hk : k &&& compl8 mask = 0)
    (h : agree mask a b) : agree mask (a ||| k) b := by
  unfold agree at *
  rw [and_or_distrib_right, hk, h, Nat.or_zero]

theorem frame_setPORTB {m0 m : MCU} {v : Nat} (h : FrameState m0 m)
    (hv : agree LCD_Bits v m0.PORTB) :
    Keeps (FrameState m0) (FrameStep m0) m (setPORTB v m) :=
  ⟨⟨hv, h.2.1, h.2.2.1, h.2.2.2⟩, [Event.write Reg.PORTB v], rfl, by simpa [FrameStep] using hv⟩

theorem frame_setPORTD {m0 m : MCU} {v : Nat} (h : FrameState m0 m)
    (hv : agree LCD_Data_D v m0.PORTD) :
    Keeps (FrameState m0) (FrameStep m0) m (setPORTD v m) :=
  ⟨⟨h.1, hv, h.2.2.1, h.2.2.2⟩, [Event.write Reg.PORTD v], rfl, by simpa [FrameStep] using hv⟩

theorem frame_setDDRB {m0 m : MCU} {v : Nat} (h : FrameState m0 m)
    (hv : agree LCD_Bits v m0.DDRB) :
    Keeps (FrameState m0) (FrameStep m0) m (setDDRB v m) :=
  ⟨⟨h.1, h.2.1, hv, h.2.2.2⟩, [Event.write Reg.DDRB v], rfl, by simpa [FrameStep] using hv⟩

theorem frame_setDDRD {m0 m : MCU} {v : Nat} (h : FrameState m0 m)
    (hv : agree LCD_Data_D v m0.DDRD) :
    Keeps (FrameState m0) (FrameStep m0) m (setDDRD v m) :=
  ⟨⟨h.1, h.2.1, h.2.2.1, hv⟩, [Event.write Reg.DDRD v], rfl, by simpa [FrameStep] using hv⟩

theorem frame_rules (useBusyFlag : Bool) (m0 : MCU) :
    StepRules useBusyFlag (FrameState m0) (FrameStep m0) where
  portb_clear_rs m h := frame_setPORTB h (agree_and (by decide) h.1)
  portb_set_rs m h := frame_setPORTB h (agree_or (by decide) h.1)
  portb_clear_rw_e m h := frame_setPORTB h (agree_and (by decide) h.1)
  portb_set_e m h := frame_setPORTB h (agree_or (by decide) h.1)
  portb_clear_e m h := frame_setPORTB h (agree_and (by decide) h.1)
  portd_clear m h := frame_setPORTD h (agree_and (by decide) h.2.1)
  portd_set x m h := frame_setPORTD h
    (agree_or (by rw [Nat.and_assoc]; exact Nat.and_zero x) h.2.1)
  ddrd_set m h := frame_setDDRD h (agree_or (by decide) h.2.2.2)
  ddrb_set m h := frame_setDDRB h (agree_or (by decide) h.2.2.1)
  delay_us n m h := ⟨h, [Event.delay n], rfl, by simp [FrameStep]⟩
  delay_ms n m h := ⟨h, [Event.delay (1000 * n)], rfl, by simp [FrameStep]⟩
  portb_clear_e_rs _ m h := frame_setPORTB h (agree_and (by decide) h.1)
  portb_set_rw _ m h := frame_setPORTB h (agree_or (by decide) h.1)
  ddrd_clear _ m h := frame_setDDRD h (agree_and (by decide) h.2.2.2)
  pind_read _ v pind m h := ⟨h, [Event.read v], rfl, by simp [FrameStep]⟩

theorem since_of_keeps {I : MCU → Prop} {P : Event → Prop} {m m2 : MCU}
    (h : Keeps I P m m2) : ∀ e ∈ since m m2, P e := by
  obtain ⟨_, evs, ht, hp⟩ := h
  rw [since_of_trace ht]
  exact hp

/-- C8 (shared-port frame).  For every operation of the driver, in either build, from every
state, and whether the operation returns or not: every byte it stores to `PORTB` or `DDRB`
agrees with the initial contents of that register outside the bits RS, R/W, E (mask 0x1C),
every byte it stores to `PORTD` or `DDRD` agrees with the initial contents on bits 0-3, and
so do the four registers in the state it ends in. -/
theorem driver_frame (useBusyFlag : Bool) (op : Op) (m : MCU) :
    (∀ e ∈ since m (op.run useBusyFlag m).state, FrameStep m e) ∧
    FrameState m (op.run useBusyFlag m).state := by
  have h := keeps_op (frame_rules useBusyFlag m) op m ⟨rfl, rfl, rfl, rfl⟩
  exact ⟨since_of_keeps h, h.1⟩

theorem driver_frame_witness :
    Event.write Reg.PORTB 0xF7 ∈
      since ⟨0xE3, 0, 0, 0, [], []⟩ (Op.run true (Op.lcd_writedata 0x41) ⟨0xE3, 0, 0, 0, [], []⟩).state ∧
    FrameStep ⟨0xE3, 0, 0, 0, [], []⟩ (Event.write Reg.PORTB 0xF7) :=
  ⟨by decide, (driver_frame true (Op.lcd_writedata 0x41) ⟨0xE3, 0, 0, 0, [], []⟩).1 _ (by decide)⟩

/-! ## Register selection -/

theorem trivial_rules (useBusyFlag : Bool) :
    StepRules useBusyFlag (fun _ => True) (fun _ => True) where
  portb_clear_rs _ _ := ⟨trivial, [_], rfl, fun _ _ => trivial⟩
  portb_set_rs _ _ := ⟨trivial, [_], rfl, fun _ _ => trivial⟩
  portb_clear_rw_e _ _ := ⟨trivial, [_], rfl, fun _ _ => trivial⟩
  portb_set_e _ _ := ⟨trivial, [_], rfl, fun _ _ => trivial⟩
  portb_clear_e _ _ := ⟨trivial, [_], rfl, fun _ _ => trivial⟩
  portd_clear _ _ := ⟨trivial, [_], rfl, fun _ _ => trivial⟩
  portd_set _ _ _ := ⟨trivial, [_], rfl, fun _ _ => trivial⟩
  ddrd_set _ _ := ⟨trivial, [_], rfl, fun _ _ => trivial⟩
  ddrb_set _ _ := ⟨trivial, [_], rfl, fun _ _ => trivial⟩
  delay_us _ _ _ := ⟨trivial, [_], rfl, fun _ _ => trivial⟩
  delay_ms _ _ _ := ⟨trivial, [_], rfl, fun _ _ => trivial⟩
  portb_clear_e_rs _ _ _ := ⟨trivial, [_], rfl, fun _ _ => trivial⟩
  portb_set_rw _ _ _ := ⟨trivial, [_], rfl, fun _ _ => trivial⟩
  ddrd_clear _ _ _ := ⟨trivial, [_], rfl, fun _ _ => trivial⟩
  pind_read _ _ _ _ _ := ⟨trivial, [_], rfl, fun _ _ => trivial⟩

/-- The steps of `lcd_wait` are appended to the log. -/
theorem lcd_wait_extends (useBusyFlag : Bool) (m : MCU) :
    ∃ tail, (lcd_wait useBusyFlag m).state.trace = m.trace ++ tail := by
  obtain ⟨_, evs, ht, _⟩ := keeps_wait (trivial_rules useBusyFlag) m trivial
  exact ⟨evs, ht⟩

/-- The twelve stores of `lcd_writebyte`, with the stored bytes in closed form. -/
theorem lcd_writebyte_trace (x : Nat) (m : MCU) :
    (lcd_writebyte x m).trace = m.trace ++
      [Event.write Reg.PORTD (m.PORTD &&& 0x0F),
       Event.write Reg.PORTD ((m.PORTD &&& 0x0F) ||| (x &&& 0xF0)),
       Event.write Reg.PORTB (m.PORTB &&& 0xF3),
       Event.write Reg.PORTB ((m.PORTB &&& 0xF3) ||| 0x04),
       Event.write Reg.PORTB ((m.PORTB &&& 0xF3) ||| 0x04),
       Event.write Reg.PORTB (m.PORTB &&& 0xF3),
       Event.write Reg.PORTD (m.PORTD &&& 0x0F),
       Event.write Reg.PORTD ((m.PORTD &&& 0x0F) ||| ((x <<< 4) % 256 &&& 0xF0)),
       Event.write Reg.PORTB (m.PORTB &&& 0xF3),
       Event.write Reg.PORTB ((m.PORTB &&& 0xF3) ||| 0x04),
       Event.write Reg.PORTB ((m.PORTB &&& 0xF3) ||| 0x04),
       Event.write Reg.PORTB (m.PORTB &&& 0xF3)] := by
  unfold lcd_writebyte
  simp +ground [lcd_writenibble_trace, lcd_writenibble_PORTB, lcd_writenibble_PORTD,
    and_or_distrib_right, Nat.and_assoc]

/-- C4 (register selection).  For every byte `x`, every state and either build: among the
values `lcd_writecommand x` stores to `PORTB`, the seven from the first rise of Enable to the
second fall of Enable (the two pulses of the byte transfer) all have Register-Select low;
for `lcd_writedata x` they all have Register-Select high. -/
theorem dispatch_holds_regsel (useBusyFlag : Bool) (x : Nat) (m : MCU) :
    (enableSpan 2 m.PORTB
        (portbWrites (since m (lcd_writecommand useBusyFlag x m).state))).map regsel
      = List.replicate 7 false ∧
    (enableSpan 2 m.PORTB
        (portbWrites (since m (lcd_writedata useBusyFlag x m).state))).map regsel
      = List.replicate 7 true := by
  constructor
  · obtain ⟨tail, ht⟩ := lcd_wait_extends useBusyFlag
      (lcd_writebyte x (setPORTB (m.PORTB &&& compl8 LCD_RS) m))
    have h : (lcd_writecommand useBusyFlag x m).state.trace = _ := ht
    rw [lcd_writebyte_trace] at h
    simp only [setPORTB, List.append_assoc] at h
    rw [since_of_trace h]
    simp +ground [portbWrites, enableSpan, fromRise, throughFalls, enable, regsel, compl8,
      LCD_E, LCD_RS, PB2, PB4, and_or_distrib_right, Nat.and_assoc, or_eq_zero_iff]
  · obtain ⟨tail, ht⟩ := lcd_wait_extends useBusyFlag
      (lcd_writebyte x (setPORTB (m.PORTB ||| LCD_RS) m))
    have h : (lcd_writedata useBusyFlag x m).state.trace = _ := ht
    rw [lcd_writebyte_trace] at h
    simp only [setPORTB, List.append_assoc] at h
    rw [since_of_trace h]
    simp +ground [portbWrites, enableSpan, fromRise, throughFalls, enable, regsel, compl8,
      LCD_E, LCD_RS, PB2, PB4, and_or_distrib_right, Nat.and_assoc, or_eq_zero_iff]

/-! ## Command and data bytes in the fixed-delay build -/

theorem sees_setPORTB_same (v : Nat) (m : MCU) (h : enable v = enable m.PORTB) :
    Sees m (setPORTB v m) [] := by
  refine ⟨[Event.write Reg.PORTB v], rfl, fun _ => ?_⟩
  cases hv : enable v <;> simp [Probe.step, setPORTB, hv, ← h]

theorem sees_writecommand (x : Nat) (hx : x < 256) (m : MCU) :
    ∃ m2, lcd_writecommand false x m = .ok m2 ∧ Sees m m2 (byteItems false x) := by
  refine ⟨_, rfl, ?_⟩
  have h1 := sees_setPORTB_same (m.PORTB &&& compl8 LCD_RS) m
    (by simp +ground [enable, compl8, LCD_E, LCD_RS, PB2, PB4, Nat.and_assoc])
  have h2 := sees_writebyte x hx (setPORTB (m.PORTB &&& compl8 LCD_RS) m)
  have h3 := sees_delay_ms 2 (lcd_writebyte x (setPORTB (m.PORTB &&& compl8 LCD_RS) m))
  have hr : regsel (setPORTB (m.PORTB &&& compl8 LCD_RS) m).PORTB = false := by
    simp +ground [setPORTB, regsel, compl8, LCD_RS, PB4, Nat.and_assoc]
  rw [hr] at h2
  exact h1.andThen (h2.andThen h3)

theorem sees_writedata (x : Nat) (hx : x < 256) (m : MCU) :
    ∃ m2, lcd_writedata false x m = .ok m2 ∧ Sees m m2 (byteItems true x) := by
  refine ⟨_, rfl, ?_⟩
  have h1 := sees_setPORTB_same (m.PORTB ||| LCD_RS) m
    (by simp +ground [enable, LCD_E, LCD_RS, PB2, PB4, and_or_distrib_right])
  have h2 := sees_writebyte x hx (setPORTB (m.PORTB ||| LCD_RS) m)
  have h3 := sees_delay_ms 2 (lcd_writebyte x (setPORTB (m.PORTB ||| LCD_RS) m))
  have hr : regsel (setPORTB (m.PORTB ||| LCD_RS) m).PORTB = true := by
    simp +ground [setPORTB, regsel, LCD_RS, PB4, and_or_distrib_right, or_eq_zero_iff]
  rw [hr] at h2
  exact h1.andThen (h2.andThen h3)

/-! ## Cursor addressing -/

theorem moveto_byte (row col : Nat) (hr : row < 2) (hc : col < 16) :
    0x80 ||| ((row * 0x40 + col) % 256) = 0x80 + (row * 0x40 + col) ∧
    (0x80 + (row * 0x40 + col)) &&& 0x7F = row * 0x40 + col := by
  interval_cases row <;> interval_cases col <;> exact ⟨rfl, rfl⟩

/-- C5 (address computation).  For row 0 or 1 and column 0..15, in either build and from
every state, `lcd_moveto row col` is exactly one `lcd_writecommand` of the byte
`0x80 + (row*0x40 + col)`, whose low seven bits are `row*0x40 + col`; in the fixed-delay
build the display sees exactly that one command byte, Register-Select low; the corners give
0x80, 0xC0, 0x8F and 0xCF. -/
theorem lcd_moveto_address (useBusyFlag : Bool) (row col : Nat) (hr : row < 2) (hc : col < 16)
    (m : MCU) :
    lcd_moveto useBusyFlag row col m
      = lcd_writecommand useBusyFlag (0x80 + (row * 0x40 + col)) m ∧
    (0x80 + (row * 0x40 + col)) &&& 0x7F = row * 0x40 + col ∧
    (∃ m2, lcd_moveto false row col m = .ok m2 ∧
      observe m (since m m2) = byteItems false (0x80 + (row * 0x40 + col))) ∧
    lcd_moveto useBusyFlag 0 0 m = lcd_writecommand useBusyFlag 0x80 m ∧
    lcd_moveto useBusyFlag 1 0 m = lcd_writecommand useBusyFlag 0xC0 m ∧
    lcd_moveto useBusyFlag 0 15 m = lcd_writecommand useBusyFlag 0x8F m ∧
    lcd_moveto useBusyFlag 1 15 m = lcd_writecommand useBusyFlag 0xCF m := by
  obtain ⟨h1, h2⟩ := moveto_byte row col hr hc
  have hlt : 0x80 + (row * 0x40 + col) < 256 := by omega
  refine ⟨?_, h2, ?_, rfl, rfl, rfl, rfl⟩
  · simp only [lcd_moveto, h1]
  · obtain ⟨m2, hm, hs⟩ := sees_writecommand (0x80 + (row * 0x40 + col)) hlt m
    exact ⟨m2, by simp only [lcd_moveto, h1, hm], hs.observe⟩

theorem lcd_moveto_address_witness :
    1 < 2 ∧ 15 < 16 ∧ lcd_moveto false 1 15 reset = lcd_writecommand false 0xCF reset ∧
    (∃ m2, lcd_moveto false 1 15 reset = .ok m2 ∧
      observe reset (since reset m2) = [nib false 0xC, nib false 0xF, Item.wait 2000]) :=
  ⟨by decide, by decide, (lcd_moveto_address false 1 15 (by decide) (by decide) reset).1,
    (lcd_moveto_address false 1 15 (by decide) (by decide) reset).2.2.1⟩

/-! ## String output -/

theorem toUChar_toSChar (b : Nat) (hb : b < 256) : toUChar (toSChar b) = b := by
  unfold toUChar toSChar
  split <;> omega

theorem toSChar_eq_zero (b : Nat) (hb : b < 256) : toSChar b = 0 ↔ b = 0 := by
  unfold toSChar
  split <;> omega

/-- On bytes, the loop of `lcd_stringout` is the loop of `lcd_stringout_P`. -/
theorem lcd_stringout_eq_P (useBusyFlag : Bool) (s : List Nat) (hs : ∀ b ∈ s, b < 256) :
    ∀ m, lcd_stringout useBusyFlag s m = lcd_stringout_P useBusyFlag s m := by
  induction s with
  | nil => intro m; rfl
  | cons b s ih =>
    intro m
    have hb : b < 256 := hs b (List.mem_cons_self _ _)
    have ih2 := ih (fun c hc => hs c (List.mem_cons_of_mem _ hc))
    unfold lcd_stringout lcd_stringout_P
    simp only [ne_eq, toSChar_eq_zero b hb, toUChar_toSChar b hb, funext ih2]

theorem lcd_stringout_P_eq_foldlM (useBusyFlag : Bool) (s : List Nat) (h0 : 0 ∈ s) :
    ∀ m, lcd_stringout_P useBusyFlag s m
      = (s.takeWhile (fun b => b != 0)).foldlM (fun m b => lcd_writedata useBusyFlag b m) m := by
  induction s with
  | nil => simp at h0
  | cons ch s ih =>
    intro m
    unfold lcd_stringout_P
    by_cases hch : ch = 0
    · simp [hch]
      rfl
    · have h0s : 0 ∈ s := by
        rcases List.mem_cons.mp h0 with h | h
        · exact absurd h.symm hch
        · exact h
      simp only [ne_eq, hch, not_false_eq_true, if_true, List.takeWhile_cons, bne_iff_ne,
        List.foldlM_cons, funext (ih h0s)]
      rfl

theorem sees_stringout_P (s : List Nat) (hs : ∀ b ∈ s, b < 256) (h0 : 0 ∈ s) :
    ∀ m, ∃ m2, lcd_stringout_P false s m = .ok m2 ∧
      Sees m m2 ((s.takeWhile (fun b => b != 0)).flatMap (byteItems true)) := by
  induction s with
  | nil => simp at h0
  | cons ch s ih =>
    intro m
    unfold lcd_stringout_P
    by_cases hch : ch = 0
    · exact ⟨m, by simp [hch], by simpa [hch] using Sees.nothing m⟩
    · have h0s : 0 ∈ s := by
        rcases List.mem_cons.mp h0 with h | h
        · exact absurd h.symm hch
        · exact h
      obtain ⟨m1, hm1, hs1⟩ := sees_writedata ch (hs ch (List.mem_cons_self _ _)) m
      obtain ⟨m2, hm2, hs2⟩ := ih (fun c hc => hs c (List.mem_cons_of_mem _ hc)) h0s m1
      refine ⟨m2, ?_, ?_⟩
      · simp only [ne_eq, hch, not_false_eq_true, if_true, hm1]
        exact hm2
      · have := hs1.andThen hs2
        simpa [hch] using this

/-- C6 (string termination).  For every sequence of bytes `s` that contains a zero byte, in
either build and from every state, `lcd_stringout s` and `lcd_stringout_P s` are exactly one
`lcd_writedata` per byte that precedes the first zero byte, in order and with that byte's
value, and nothing for the terminator or what follows it; in the fixed-delay build both
return, and the display sees exactly those data bytes, Register-Select high. -/
theorem lcd_stringout_stops_at_zero (useBusyFlag : Bool) (s : List Nat)
    (hs : ∀ b ∈ s, b < 256) (h0 : 0 ∈ s) (m : MCU) :
    lcd_stringout useBusyFlag s m
      = (s.takeWhile (fun b => b != 0)).foldlM (fun m b => lcd_writedata useBusyFlag b m) m ∧
    lcd_stringout_P useBusyFlag s m
      = (s.takeWhile (fun b => b != 0)).foldlM (fun m b => lcd_writedata useBusyFlag b m) m ∧
    (∃ m2, lcd_stringout false s m = .ok m2 ∧ lcd_stringout_P false s m = .ok m2 ∧
      observe m (since m m2) = (s.takeWhile (fun b => b != 0)).flatMap (byteItems true)) := by
  refine ⟨?_, lcd_stringout_P_eq_foldlM useBusyFlag s h0 m, ?_⟩
  · rw [lcd_stringout_eq_P useBusyFlag s hs m]
    exact lcd_stringout_P_eq_foldlM useBusyFlag s h0 m
  · obtain ⟨m2, hm, hsees⟩ := sees_stringout_P s hs h0 m
    exact ⟨m2, by rw [lcd_stringout_eq_P false s hs m]; exact hm, hm, hsees.observe⟩

theorem lcd_stringout_stops_at_zero_witness :
    (∀ b ∈ [0x41, 0x42, 0], b < 256) ∧ 0 ∈ [0x41, 0x42, 0] ∧
    lcd_stringout false [0x41, 0x42, 0] reset
      = (lcd_writedata false 0x41 reset).bind (lcd_writedata false 0x42) ∧
    (∃ m2, lcd_stringout false [0x41, 0x42, 0] reset = .ok m2 ∧
      lcd_stringout_P false [0x41, 0x42, 0] reset = .ok m2 ∧
      observe reset (since reset m2)
        = [nib true 4, nib true 1, Item.wait 2000, nib true 4, nib true 2, Item.wait 2000]) :=
  ⟨by decide, by decide,
    (lcd_stringout_stops_at_zero false [0x41, 0x42, 0] (by decide) (by decide) reset).1,
    (lcd_stringout_stops_at_zero false [0x41, 0x42, 0] (by decide) (by decide) reset).2.2⟩

/-! ## Initialization -/

theorem SeesR.seq {m : MCU} {r : Run} {g : MCU → Run} {i j : List Item}
    (h1 : SeesR m r i) (h2 : ∀ m1, SeesR m1 (g m1) j) : SeesR m (r.bind g) (i ++ j) := by
  obtain ⟨m1, rfl, s1⟩ := h1
  obtain ⟨m2, e2, s2⟩ := h2 m1
  exact ⟨m2, e2, s1.andThen s2⟩

theorem Sees.thenR {m a : MCU} {r : Run} {i j : List Item}
    (h1 : Sees m a i) (h2 : SeesR a r j) : SeesR m r (i ++ j) := by
  obtain ⟨m2, e2, s2⟩ := h2
  exact ⟨m2, e2, h1.andThen s2⟩

theorem Sees.nibble_low {m a : MCU} {i : List Item} (h : Sees m a i) (x : Nat)
    (hr : regsel a.PORTB = false) :
    Sees m (lcd_writenibble x a) (i ++ [nib false ((x &&& 0xF0) >>> 4)]) ∧
    regsel (lcd_writenibble x a).PORTB = false := by
  have h1 := sees_writenibble x a
  rw [hr] at h1
  exact ⟨h.andThen h1, by rw [lcd_writenibble_PORTB, regsel_and_F3, hr]⟩

theorem regsel_clear (p : Nat) : regsel (p &&& compl8 LCD_RS) = false := by
  simp +ground [regsel, compl8, LCD_RS, PB4, Nat.and_assoc]

theorem enable_clear_rs (p : Nat) : enable (p &&& compl8 LCD_RS) = enable p := by
  simp +ground [enable, compl8, LCD_E, LCD_RS, PB2, PB4, Nat.and_assoc]

/-- What the display sees of `lcd_init` in the fixed-delay build. -/
theorem sees_init (m : MCU) :
    SeesR m (lcd_init false m)
      ([Item.wait 15000, nib false 3, Item.wait 5000, nib false 3, Item.wait 120,
        nib false 3, Item.wait 2000, nib false 2, Item.wait 2000]
        ++ byteItems false 0x28 ++ byteItems false 0x0F) := by
  have s1 := (Sees.nothing m).andThen (sees_setDDRD (m.DDRD ||| LCD_Data_D) _)
  have s2 := s1.andThen (sees_setDDRB (m.DDRB ||| LCD_Bits) _)
  have s3 := s2.andThen (sees_setPORTB_same (m.PORTB &&& compl8 LCD_RS) _ (enable_clear_rs m.PORTB))
  have s4 := s3.andThen (sees_delay_ms 15 _)
  have s5 := s4.nibble_low 0x30 (regsel_clear m.PORTB)
  have s6 := s5.1.andThen (sees_delay_ms 5 _)
  have s7 := s6.nibble_low 0x30 s5.2
  have s8 := s7.1.andThen (sees_delay_us 120 _)
  have s9 := s8.nibble_low 0x30 s7.2
  have s10 := s9.1.andThen (sees_delay_ms 2 _)
  have s11 := s10.nibble_low 0x20 s9.2
  have s12 := s11.1.andThen (sees_delay_ms 2 _)
  have s14 := s12.thenR (SeesR.seq (sees_writecommand 0x28 (by decide) _)
    (fun m1 => sees_writecommand 0x0f (by decide) m1))
  unfold lcd_init
  simp only [setDDRD, setDDRB] at s14 ⊢
  exact s14

/-- A run that returns logged the steps of anything the log already held. -/
theorem take_since {m m2 : MCU} (evs tail : List Event)
    (h : m2.trace = m.trace ++ (evs ++ tail)) : (since m m2).take evs.length = evs := by
  rw [since_of_trace h]
  simp

/-- The first four steps of `lcd_init`. -/
theorem lcd_init_opening (useBusyFlag : Bool) (m : MCU) :
    (since m (lcd_init useBusyFlag m).state).take 4
      = [Event.write Reg.DDRD (m.DDRD ||| LCD_Data_D),
         Event.write Reg.DDRB (m.DDRB ||| LCD_Bits),
         Event.write Reg.PORTB (m.PORTB &&& compl8 LCD_RS), Event.delay 15000] := by
  have R := trivial_rules useBusyFlag
  have k5 := keeps_writenibble R 0x30 (_delay_ms 15 (setPORTB (m.PORTB &&& compl8 LCD_RS)
    (setDDRB (m.DDRB ||| LCD_Bits) (setDDRD (m.DDRD ||| LCD_Data_D) m)))) trivial
  have k6 := k5.next (R.delay_ms 5 _ trivial)
  have k7 := k6.next (keeps_writenibble R 0x30 _ trivial)
  have k8 := k7.next (R.delay_us 120 _ trivial)
  have k9 := k8.next (keeps_writenibble R 0x30 _ trivial)
  have k10 := k9.next (R.delay_ms 2 _ trivial)
  have k11 := k10.next (keeps_writenibble R 0x20 _ trivial)
  have k12 := k11.next (R.delay_ms 2 _ trivial)
  have k14 := k12.next (Keeps.bindRun (keeps_writecommand R 0x28 _ trivial)
    (fun m1 h1 => keeps_writecommand R 0x0f m1 h1))
  obtain ⟨_, tail, ht, _⟩ := k14
  refine take_since [_, _, _, _] tail ?_
  unfold lcd_init
  simp only [setDDRD, setDDRB] at ht ⊢
  rw [ht]
  simp [_delay_ms, setPORTB]

/-- C7 (initialization sequence).  In the fixed-delay build and from every state, `lcd_init`
returns; its first steps are the two direction stores, the store that drives
Register-Select low, and a wait of 15 ms; the display then sees, in this order and nothing
else: the nibble 0x3, a wait of 5 ms, the nibble 0x3, a wait of 120 microseconds, the nibble
0x3, a wait of 2 ms, the nibble 0x2, a wait of 2 ms, the command byte 0x28 and the command
byte 0x0F, each byte followed by its 2 ms settling wait, Register-Select low in every Enable
pulse. -/
theorem lcd_init_sequence (m : MCU) :
    ∃ m2, lcd_init false m = .ok m2 ∧
      (since m m2).take 4
        = [Event.write Reg.DDRD (m.DDRD ||| LCD_Data_D),
           Event.write Reg.DDRB (m.DDRB ||| LCD_Bits),
           Event.write Reg.PORTB (m.PORTB &&& compl8 LCD_RS), Event.delay 15000] ∧
      regsel (m.PORTB &&& compl8 LCD_RS) = false ∧
      observe m (since m m2)
        = [Item.wait 15000, nib false 3, Item.wait 5000, nib false 3, Item.wait 120,
           nib false 3, Item.wait 2000, nib false 2, Item.wait 2000]
          ++ byteItems false 0x28 ++ byteItems false 0x0F := by
  obtain ⟨m2, hm, hs⟩ := sees_init m
  refine ⟨m2, hm, ?_, regsel_clear m.PORTB, hs.observe⟩
  have h := lcd_init_opening false m
  rw [hm] at h
  exact h

/-! ## End-to-end scenario -/

theorem str1_bytes : (∀ b ∈ str1, b < 256) ∧ 0 ∈ str1 := by decide
theorem str2_bytes : (∀ b ∈ str2, b < 256) ∧ 0 ∈ str2 := by decide

/-- What the display sees of `main` in the fixed-delay build. -/
theorem sees_main (m : MCU) :
    SeesR m (main false m)
      (([Item.wait 15000, nib false 3, Item.wait 5000, nib false 3, Item.wait 120,
        nib false 3, Item.wait 2000, nib false 2, Item.wait 2000]
        ++ byteItems false 0x28 ++ byteItems false 0x0F)
      ++ (byteItems false 0x80 ++ ((text str1).flatMap (byteItems true)
      ++ (byteItems false 0xC0 ++ (text str2).flatMap (byteItems true))))) :=
  SeesR.seq (sees_init m) fun m1 =>
  SeesR.seq (sees_writecommand 0x80 (by decide) m1) fun m2 =>
  SeesR.seq (sees_stringout_P str1 str1_bytes.1 str1_bytes.2 m2) fun m3 =>
  SeesR.seq (sees_writecommand 0xC0 (by decide) m3) fun m4 =>
  sees_stringout_P str2 str2_bytes.1 str2_bytes.2 m4

theorem scenario_pulses :
    pulsesOf (([Item.wait 15000, nib false 3, Item.wait 5000, nib false 3, Item.wait 120,
        nib false 3, Item.wait 2000, nib false 2, Item.wait 2000]
        ++ byteItems false 0x28 ++ byteItems false 0x0F)
      ++ (byteItems false 0x80 ++ ((text str1).flatMap (byteItems true)
      ++ (byteItems false 0xC0 ++ (text str2).flatMap (byteItems true)))))
    = scenario.flatMap Transfer.pulses := by
  decide

theorem scenario_differs :
    (scenario.flatMap Transfer.pulses).length = 108 ∧
    (scenarioAsStated.flatMap Transfer.pulses).length = 112 := by
  decide

/-- C1 as amended (end-to-end scenario).  In the fixed-delay build and from every state,
`main` reaches its idle loop, and the transfers latched by its Enable pulses are exactly:
the nibble 0x3 three times, the nibble 0x2, the commands 0x28, 0x0F and 0x80, one data write
for each of the 24 characters of the first string in order, the command 0xC0, one data write
for each of the 24 characters of the second string in order; Register-Select is low in
every nibble and command pulse and high in every data pulse.  The terminating zero byte,
the 25th byte of either array, is not written. -/
theorem main_scenario (m : MCU) :
    ∃ m2, main false m = .ok m2 ∧
      pulsesOf (observe m (since m m2)) = scenario.flatMap Transfer.pulses ∧
      text str1 = ">> at328-5.c  <<78901234".toList.map Char.toNat ∧
      text str2 = ">> USC EE459L <<78901234".toList.map Char.toNat ∧
      (text str1).length = 24 ∧ (text str2).length = 24 := by
  obtain ⟨m2, hm, hs⟩ := sees_main m
  refine ⟨m2, hm, ?_, by decide, by decide, by decide, by decide⟩
  rw [hs.observe]
  exact scenario_pulses

/-- C1 as stated fails: from the reset state `main` does not latch 25 data writes per string;
it makes 108 Enable pulses where the stated sequence needs 112. -/
theorem main_scenario_not_25_writes :
    ¬ ∃ m2, main false reset = .ok m2 ∧
      pulsesOf (observe reset (since reset m2)) = scenarioAsStated.flatMap Transfer.pulses := by
  rintro ⟨m2, hm, hp⟩
  obtain ⟨m3, hm3, hs⟩ := sees_main reset
  rw [hm] at hm3
  cases hm3
  rw [hs.observe, scenario_pulses] at hp
  have h := congrArg List.length hp
  rw [scenario_differs.1, scenario_differs.2] at h
  exact absurd h (by decide)

/-! ## Busy-flag polling -/

theorem enable_set_e (p : Nat) : enable (p ||| LCD_E) = true := by
  simp +ground [enable, LCD_E, PB2, and_or_distrib_right, or_eq_zero_iff]

theorem enable_clear_e (p : Nat) : enable (p &&& compl8 LCD_E) = false := by
  simp +ground [enable, compl8, LCD_E, PB2, Nat.and_assoc]

theorem regsel_set_e (p : Nat) : regsel (p ||| LCD_E) = regsel p := by
  simp +ground [regsel, LCD_E, LCD_RS, PB2, PB4, and_or_distrib_right]

theorem regsel_clear_e (p : Nat) : regsel (p &&& compl8 LCD_E) = regsel p := by
  simp +ground [regsel, compl8, LCD_E, LCD_RS, PB2, PB4, Nat.and_assoc]

theorem readwrite_set_e (p : Nat) : readwrite (p ||| LCD_E) = readwrite p := by
  simp +ground [readwrite, LCD_E, LCD_RW, PB2, PB3, and_or_distrib_right]

theorem readwrite_clear_e (p : Nat) : readwrite (p &&& compl8 LCD_E) = readwrite p := by
  simp +ground [readwrite, compl8, LCD_E, LCD_RW, PB2, PB3, Nat.and_assoc]

theorem lcd_wait_body_PORTB (v : Nat) (pind : List Nat) (m : MCU) :
    (lcd_wait_body v pind m).PORTB = m.PORTB &&& 0xFB := by
  simp +ground [lcd_wait_body, setPORTB, _delay_us, compl8, LCD_E, PB2, and_or_distrib_right,
    Nat.and_assoc]

theorem lcd_wait_body_regs (v : Nat) (pind : List Nat) (m : MCU) :
    (lcd_wait_body v pind m).PORTD = m.PORTD ∧ (lcd_wait_body v pind m).DDRD = m.DDRD ∧
    (lcd_wait_body v pind m).DDRB = m.DDRB ∧ (lcd_wait_body v pind m).PIND = pind :=
  ⟨rfl, rfl, rfl, rfl⟩

/-- The six steps of one pass of the polling loop, with the stored bytes in closed form. -/
theorem lcd_wait_body_trace (v : Nat) (pind : List Nat) (m : MCU) :
    (lcd_wait_body v pind m).trace = m.trace ++
      [Event.write Reg.PORTB (m.PORTB ||| 0x04), Event.delay 1, Event.read v,
       Event.write Reg.PORTB (m.PORTB &&& 0xFB),
       Event.write Reg.PORTB ((m.PORTB &&& 0xFB) ||| 0x04),
       Event.write Reg.PORTB (m.PORTB &&& 0xFB)] := by
  simp +ground [lcd_wait_body, setPORTB, _delay_us, compl8, LCD_E, PB2, and_or_distrib_right,
    Nat.and_assoc]

/-- One pass of the polling loop entered with Enable low: a wait of 1 microsecond and the
status sample inside a first Enable pulse, then a second Enable pulse. -/
theorem sees_wait_body (v : Nat) (pind : List Nat) (m : MCU) (he : enable m.PORTB = false) :
    Sees m (lcd_wait_body v pind m)
      [Item.wait 1, Item.sample v, Item.pulse [snap m.PORTB m.PORTD],
        Item.pulse [snap m.PORTB m.PORTD]] := by
  refine ⟨_, lcd_wait_body_trace v pind m, fun out => ?_⟩
  simp +ground only [enable, LCD_E, PB2, bne_eq_false_iff_eq] at he
  simp +ground [Probe.step, snap, enable, regsel, readwrite, LCD_E, LCD_RS, LCD_RW, PB2, PB3,
    PB4, and_or_distrib_right, Nat.and_assoc, he, lcd_wait_body_PORTB,
    (lcd_wait_body_regs v pind m).1]

/-- What the display sees of the polling loop when the answers `pre` have the busy flag set
and the answer `v` has it clear. -/
theorem sees_wait_loop (s : Snap) (v : Nat) (rest : List Nat)
    (hv : v &&& LCD_Status = 0) (pre : List Nat) (hpre : ∀ b ∈ pre, b &&& LCD_Status ≠ 0) :
    ∀ m, enable m.PORTB = false → snap m.PORTB m.PORTD = s →
      ∃ m2, lcd_wait_loop (pre ++ v :: rest) m = .ok m2 ∧ m2.PIND = rest ∧
        Sees m m2 ((pre ++ [v]).flatMap fun b =>
          [Item.wait 1, Item.sample b, Item.pulse [s], Item.pulse [s]]) := by
  induction pre with
  | nil =>
    intro m he hs
    refine ⟨lcd_wait_body v rest m, by simp [lcd_wait_loop, hv], rfl, ?_⟩
    have h := sees_wait_body v rest m he
    rw [hs] at h
    simpa using h
  | cons b pre ih =>
    intro m he hs
    have hb : b &&& LCD_Status ≠ 0 := hpre b (List.mem_cons_self _ _)
    have h1 := sees_wait_body b (pre ++ v :: rest) m he
    rw [hs] at h1
    obtain ⟨m2, hm2, hp2, hs2⟩ := ih (fun c hc => hpre c (List.mem_cons_of_mem _ hc))
      (lcd_wait_body b (pre ++ v :: rest) m)
      (by rw [lcd_wait_body_PORTB]; exact enable_clear_e m.PORTB)
      (by
        rw [← hs, lcd_wait_body_PORTB, (lcd_wait_body_regs _ _ _).1]
        simp only [snap]
        rw [show (0xFB : Nat) = compl8 LCD_E from rfl, regsel_clear_e, readwrite_clear_e])
    refine ⟨m2, ?_, hp2, ?_⟩
    · simp only [List.cons_append, lcd_wait_loop, ne_eq, hb, not_false_eq_true, if_true]
      exact hm2
    · exact h1.andThen hs2

/-- What the display sees of `lcd_wait` in the busy-flag build when the pending answers are
`pre`, all with the busy flag set, then `v` with the busy flag clear, then `rest`. -/
theorem sees_wait_busy (m : MCU) (pre : List Nat) (v : Nat) (rest : List Nat)
    (hpre : ∀ b ∈ pre, b &&& LCD_Status ≠ 0) (hv : v &&& LCD_Status = 0)
    (hp : m.PIND = pre ++ v :: rest) :
    ∃ m2, lcd_wait true m = .ok m2 ∧ m2.PIND = rest ∧
      Sees m m2 ((pre ++ [v]).flatMap fun b =>
        [Item.wait 1, Item.sample b, Item.pulse [⟨false, true, 0⟩],
          Item.pulse [⟨false, true, 0⟩]]) := by
  have s1 := (Sees.nothing m).andThen (sees_setPORTD (m.PORTD &&& compl8 LCD_Data_D) _)
  have s2 := s1.andThen (sees_setDDRD (m.DDRD &&& compl8 LCD_Data_D) _)
  have s3 := s2.andThen (sees_setPORTB (m.PORTB &&& compl8 (LCD_E ||| LCD_RS)) _
    (by simp +ground [enable, compl8, LCD_E, LCD_RS, PB2, PB4, Nat.and_assoc]))
  have s4 := s3.andThen (sees_setPORTB ((m.PORTB &&& compl8 (LCD_E ||| LCD_RS)) ||| LCD_RW) _
    (by simp +ground [enable, compl8, LCD_E, LCD_RS, LCD_RW, PB2, PB3, PB4, Nat.and_assoc,
      and_or_distrib_right]))
  obtain ⟨m2, hm2, hp2, hs2⟩ := sees_wait_loop ⟨false, true, 0⟩ v rest hv pre hpre
    (setPORTB ((m.PORTB &&& compl8 (LCD_E ||| LCD_RS)) ||| LCD_RW)
      (setPORTB (m.PORTB &&& compl8 (LCD_E ||| LCD_RS))
        (setDDRD (m.DDRD &&& compl8 LCD_Data_D) (setPORTD (m.PORTD &&& compl8 LCD_Data_D) m))))
    (by simp +ground [setPORTB, enable, compl8, LCD_E, LCD_RS, LCD_RW, PB2, PB3, PB4,
      Nat.and_assoc, and_or_distrib_right])
    (by simp +ground [setPORTB, setPORTD, setDDRD, snap, regsel, readwrite, datalines, compl8,
      LCD_E, LCD_RS, LCD_RW, LCD_Data_D, PB2, PB3, PB4, Nat.and_assoc, and_or_distrib_right,
      or_eq_zero_iff])
  have s5 := (s4.andThen hs2).andThen (sees_setDDRD (m2.DDRD ||| LCD_Data_D) m2)
  refine ⟨setDDRD (m2.DDRD ||| LCD_Data_D) m2, ?_, hp2, by simpa using s5⟩
  unfold lcd_wait
  simp only [if_true, setPORTB, setPORTD, setDDRD, hp] at hm2 ⊢
  rw [hm2]
  rfl

/-- C10 (busy-flag polling).  In the `USE_BUSY_FLAG` build, from every state: if the pending
answers of `PIND` are `pre`, all with bit 7 set, then `v` with bit 7 clear, then `rest`, so
that the first not-busy answer is the `k`-th with `k = pre.length + 1`, then `lcd_wait`
returns having consumed exactly those `k` answers and leaving `rest`; the display sees `k`
passes, one per answer in order, each a wait of 1 microsecond and the status sample followed
by exactly two Enable pulses whatever the answer, `2 * k` pulses in all, each with
Register-Select low and Read/Write high. -/
theorem lcd_wait_polls_until_not_busy (m : MCU) (pre : List Nat) (v : Nat) (rest : List Nat)
    (hpre : ∀ b ∈ pre, b &&& LCD_Status ≠ 0) (hv : v &&& LCD_Status = 0)
    (hp : m.PIND = pre ++ v :: rest) :
    ∃ m2, lcd_wait true m = .ok m2 ∧ m2.PIND = rest ∧
      observe m (since m m2) = ((pre ++ [v]).flatMap fun b =>
        [Item.wait 1, Item.sample b, Item.pulse [⟨false, true, 0⟩],
          Item.pulse [⟨false, true, 0⟩]]) ∧
      (pulsesOf (observe m (since m m2))).length = 2 * (pre.length + 1) := by
  obtain ⟨m2, hm, hr, hs⟩ := sees_wait_busy m pre v rest hpre hv hp
  refine ⟨m2, hm, hr, hs.observe, ?_⟩
  rw [hs.observe]
  have hlen : ∀ l : List Nat, (pulsesOf (l.flatMap fun b =>
      [Item.wait 1, Item.sample b, Item.pulse [⟨false, true, 0⟩],
        Item.pulse [⟨false, true, 0⟩]])).length = 2 * l.length := by
    intro l
    induction l with
    | nil => rfl
    | cons b l ih =>
      simp only [List.flatMap_cons, pulsesOf, List.filterMap_append, List.length_append,
        List.length_cons] at ih ⊢
      rw [ih]
      simp [List.filterMap_cons]
      omega
  rw [hlen]
  simp

theorem lcd_wait_polls_until_not_busy_witness :
    (∀ b ∈ [0x80, 0xFF], b &&& LCD_Status ≠ 0) ∧ 0x7F &&& LCD_Status = 0 ∧
    ∃ m2, lcd_wait true ⟨0, 0, 0, 0, [0x80, 0xFF, 0x7F, 0x80], []⟩ = .ok m2 ∧ m2.PIND = [0x80] ∧
      (pulsesOf (observe ⟨0, 0, 0, 0, [0x80, 0xFF, 0x7F, 0x80], []⟩
        (since ⟨0, 0, 0, 0, [0x80, 0xFF, 0x7F, 0x80], []⟩ m2))).length = 6 := by
  refine ⟨by decide, by decide, ?_⟩
  obtain ⟨m2, h1, h2, _, h4⟩ := lcd_wait_polls_until_not_busy
    ⟨0, 0, 0, 0, [0x80, 0xFF, 0x7F, 0x80], []⟩ [0x80, 0xFF] 0x7F [0x80]
    (by decide) (by decide) rfl
  exact ⟨m2, h1, h2, h4⟩

/-! ## Control pins -/

theorem rwlow_setPORTB {m : MCU} {v : Nat} (hv : readwrite v = false) :
    Keeps RWLow RWLowStep m (setPORTB v m) :=
  ⟨hv, [Event.write Reg.PORTB v], rfl, by simpa [RWLowStep] using hv⟩

theorem rwlow_other {m m2 : MCU} {e : Event} (h : RWLow m) (hp : m2.PORTB = m.PORTB)
    (ht : m2.trace = m.trace ++ [e]) (he : RWLowStep e) : Keeps RWLow RWLowStep m m2 :=
  ⟨by unfold RWLow; rw [hp]; exact h, [e], ht, by simpa using he⟩

theorem readwrite_and (p k : Nat) (hk : compl8 k &&& LCD_RW = LCD_RW) :
    readwrite (p &&& compl8 k) = readwrite p := by
  unfold readwrite
  rw [Nat.and_assoc, hk]

theorem readwrite_or (p k : Nat) (hk : k &&& LCD_RW = 0) :
    readwrite (p ||| k) = readwrite p := by
  unfold readwrite
  rw [and_or_distrib_right, hk, Nat.or_zero]

theorem readwrite_clear_rw_e (p : Nat) : readwrite (p &&& compl8 (LCD_RW ||| LCD_E)) = false := by
  simp +ground [readwrite, compl8, LCD_RW, LCD_E, PB2, PB3, Nat.and_assoc]

/-- In the fixed-delay build no statement the driver runs raises Read/Write. -/
theorem rwlow_rules : StepRules false RWLow RWLowStep where
  portb_clear_rs m h := rwlow_setPORTB ((readwrite_and _ _ (by decide)).trans h)
  portb_set_rs m h := rwlow_setPORTB ((readwrite_or _ _ (by decide)).trans h)
  portb_clear_rw_e m _ := rwlow_setPORTB (readwrite_clear_rw_e _)
  portb_set_e m h := rwlow_setPORTB ((readwrite_or _ _ (by decide)).trans h)
  portb_clear_e m h := rwlow_setPORTB ((readwrite_and _ _ (by decide)).trans h)
  portd_clear m h := rwlow_other h rfl rfl trivial
  portd_set x m h := rwlow_other h rfl rfl trivial
  ddrd_set m h := rwlow_other h rfl rfl trivial
  ddrb_set m h := rwlow_other h rfl rfl trivial
  delay_us n m h := rwlow_other h rfl rfl trivial
  delay_ms n m h := rwlow_other h rfl rfl trivial
  portb_clear_e_rs hb := absurd hb (by decide)
  portb_set_rw hb := absurd hb (by decide)
  ddrd_clear hb := absurd hb (by decide)
  pind_read hb := absurd hb (by decide)

theorem enable_and_F3 (p : Nat) : enable (p &&& 0xF3) = false := by
  simp +ground [enable, LCD_E, PB2, Nat.and_assoc]

theorem writebyte_idle (x : Nat) (m : MCU) : enable (lcd_writebyte x m).PORTB = false := by
  unfold lcd_writebyte
  simp only [lcd_writenibble_PORTB]
  exact enable_and_F3 _

theorem wait_loop_idle (pind : List Nat) :
    ∀ m m2, lcd_wait_loop pind m = .ok m2 → enable m2.PORTB = false := by
  induction pind with
  | nil => intro m m2 h; simp [lcd_wait_loop] at h
  | cons v pind ih =>
    intro m m2 h
    unfold lcd_wait_loop at h
    dsimp only at h
    split at h
    · exact ih _ _ h
    · cases h
      rw [lcd_wait_body_PORTB]
      exact enable_clear_e m.PORTB

theorem wait_idle (useBusyFlag : Bool) (m m2 : MCU) (he : enable m.PORTB = false)
    (h : lcd_wait useBusyFlag m = .ok m2) : enable m2.PORTB = false := by
  unfold lcd_wait at h
  split at h
  · dsimp only at h
    generalize hr : lcd_wait_loop _ _ = r at h
    cases r with
    | error e => cases h
    | ok m1 =>
      cases h
      exact wait_loop_idle _ _ m1 hr
  · cases h
    exact he

theorem writecommand_idle (useBusyFlag : Bool) (x : Nat) (m m2 : MCU)
    (h : lcd_writecommand useBusyFlag x m = .ok m2) : enable m2.PORTB = false :=
  wait_idle useBusyFlag _ m2 (writebyte_idle x _) h

theorem writedata_idle (useBusyFlag : Bool) (x : Nat) (m m2 : MCU)
    (h : lcd_writedata useBusyFlag x m = .ok m2) : enable m2.PORTB = false :=
  wait_idle useBusyFlag _ m2 (writebyte_idle x _) h

theorem bind_ok {r : Run} {g : MCU → Run} {m2 : MCU} (h : r.bind g = .ok m2) :
    ∃ m1, r = .ok m1 ∧ g m1 = .ok m2 := by
  cases r with
  | error e => cases h
  | ok m1 => exact ⟨m1, rfl, h⟩

theorem stringout_P_idle (useBusyFlag : Bool) (s : List Nat) :
    ∀ m m2, enable m.PORTB = false → lcd_stringout_P useBusyFlag s m = .ok m2 →
      enable m2.PORTB = false := by
  induction s with
  | nil => intro m m2 _ h; cases h
  | cons ch s ih =>
    intro m m2 he h
    unfold lcd_stringout_P at h
    split at h
    · obtain ⟨m1, h1, h2⟩ := bind_ok h
      exact ih m1 m2 (writedata_idle useBusyFlag ch m m1 h1) h2
    · cases h
      exact he

theorem stringout_idle (useBusyFlag : Bool) (str : List Nat) :
    ∀ m m2, enable m.PORTB = false → lcd_stringout useBusyFlag str m = .ok m2 →
      enable m2.PORTB = false := by
  induction str with
  | nil => intro m m2 _ h; cases h
  | cons b str ih =>
    intro m m2 he h
    unfold lcd_stringout at h
    dsimp only at h
    split at h
    · obtain ⟨m1, h1, h2⟩ := bind_ok h
      exact ih m1 m2 (writedata_idle useBusyFlag _ m m1 h1) h2
    · cases h
      exact he

theorem init_idle (useBusyFlag : Bool) (m m2 : MCU) (h : lcd_init useBusyFlag m = .ok m2) :
    enable m2.PORTB = false := by
  unfold lcd_init at h
  dsimp only at h
  obtain ⟨m1, _, h2⟩ := bind_ok h
  exact writecommand_idle useBusyFlag _ m1 m2 h2

/-- Every operation entered with Enable low returns with Enable low. -/
theorem op_idle (useBusyFlag : Bool) (op : Op) (m m2 : MCU) (he : enable m.PORTB = false)
    (h : op.run useBusyFlag m = .ok m2) : enable m2.PORTB = false := by
  cases op with
  | lcd_init => exact init_idle useBusyFlag m m2 h
  | lcd_moveto row col => exact writecommand_idle useBusyFlag _ m m2 h
  | lcd_stringout str => exact stringout_idle useBusyFlag str m m2 he h
  | lcd_stringout_P s => exact stringout_P_idle useBusyFlag s m m2 he h
  | lcd_writecommand x => exact writecommand_idle useBusyFlag x m m2 h
  | lcd_writedata x => exact writedata_idle useBusyFlag x m m2 h
  | lcd_writebyte x => cases h; exact writebyte_idle x m
  | lcd_writenibble x =>
    cases h
    rw [lcd_writenibble_PORTB]
    exact enable_and_F3 _
  | lcd_wait => exact wait_idle useBusyFlag m m2 he h

theorem portbWrites_of_steps {evs : List Event} (h : ∀ e ∈ evs, RWLowStep e) :
    ∀ v ∈ portbWrites evs, readwrite v = false := by
  intro v hv
  unfold portbWrites at hv
  obtain ⟨e, he, hev⟩ := List.mem_filterMap.mp hv
  have := h e he
  cases e with
  | write r w =>
    cases r <;> simp at hev
    subst hev
    exact this
  | read w => simp at hev
  | delay us => simp at hev

/-- C9 as amended (control pins).  In the fixed-delay build, every operation of the driver
started with Read/Write low stores only bytes with Read/Write low to `PORTB` and ends with
Read/Write low, whether it returns or not.  In either build, every operation started with
Enable low that returns, returns with Enable low. -/
theorem control_pins (op : Op) (m : MCU) :
    (readwrite m.PORTB = false →
      (∀ v ∈ portbWrites (since m (op.run false m).state), readwrite v = false) ∧
      readwrite (op.run false m).state.PORTB = false) ∧
    (∀ useBusyFlag m2, enable m.PORTB = false → op.run useBusyFlag m = .ok m2 →
      enable m2.PORTB = false) := by
  refine ⟨fun h => ?_, fun b m2 he hr => op_idle b op m m2 he hr⟩
  have k := keeps_op rwlow_rules op m h
  exact ⟨portbWrites_of_steps (since_of_keeps k), k.1⟩

theorem control_pins_witness :
    readwrite reset.PORTB = false ∧ enable reset.PORTB = false ∧
    readwrite (Op.run false Op.lcd_init reset).state.PORTB = false ∧
    enable (Op.run true (Op.lcd_writenibble 0x30) reset).state.PORTB = false :=
  ⟨by decide, by decide, ((control_pins Op.lcd_init reset).1 (by decide)).2,
    (control_pins (Op.lcd_writenibble 0x30) reset).2 true _ (by decide) rfl⟩

/-- C9 as stated fails: in the `USE_BUSY_FLAG` build, `lcd_wait` run from the reset state
with a not-busy display stores 0x08 to `PORTB`, a byte with Read/Write high. -/
theorem readwrite_high_while_polling :
    0x08 ∈ portbWrites (since ⟨0, 0, 0, 0, [0], []⟩
      (Op.run true Op.lcd_wait ⟨0, 0, 0, 0, [0], []⟩).state) ∧
    readwrite 0x08 = true := by
  decide

/-! ## String variants, unchecked addresses, reassembly -/

/-- C11 (the two string-output variants).  For every sequence of bytes `s` with a zero byte,
bytes of 0x80 and above included, in either build and from every state, `lcd_stringout`,
which holds each byte in a signed `char`, and `lcd_stringout_P`, which holds it in an
`unsigned char`, give the same run: the same log of stores, loads and waits and the same
final state, returned or not; in the fixed-delay build both return. -/
theorem string_variants_agree (useBusyFlag : Bool) (s : List Nat) (hs : ∀ b ∈ s, b < 256)
    (h0 : 0 ∈ s) (m : MCU) :
    lcd_stringout useBusyFlag s m = lcd_stringout_P useBusyFlag s m ∧
    (lcd_stringout useBusyFlag s m).state.trace = (lcd_stringout_P useBusyFlag s m).state.trace ∧
    (lcd_stringout useBusyFlag s m).state = (lcd_stringout_P useBusyFlag s m).state ∧
    (∃ m2, lcd_stringout false s m = .ok m2 ∧ lcd_stringout_P false s m = .ok m2) := by
  have h := lcd_stringout_eq_P useBusyFlag s hs m
  refine ⟨h, by rw [h], by rw [h], ?_⟩
  obtain ⟨m2, hm, _⟩ := sees_stringout_P s hs h0 m
  exact ⟨m2, by rw [lcd_stringout_eq_P false s hs m]; exact hm, hm⟩

theorem string_variants_agree_witness :
    (∀ b ∈ [0x80, 0xFF, 0x41, 0], b < 256) ∧ 0 ∈ [0x80, 0xFF, 0x41, 0] ∧
    lcd_stringout true [0x80, 0xFF, 0x41, 0] reset
      = lcd_stringout_P true [0x80, 0xFF, 0x41, 0] reset ∧
    (∃ m2, lcd_stringout false [0x80, 0xFF, 0x41, 0] reset = .ok m2 ∧
      lcd_stringout_P false [0x80, 0xFF, 0x41, 0] reset = .ok m2) :=
  ⟨by decide, by decide,
    (string_variants_agree true [0x80, 0xFF, 0x41, 0] (by decide) (by decide) reset).1,
    (string_variants_agree false [0x80, 0xFF, 0x41, 0] (by decide) (by decide) reset).2.2.2⟩

set_option maxRecDepth 100000 in
theorem set_address_byte : ∀ k < 256,
    0x80 ≤ 0x80 ||| k ∧ 0x80 ||| k < 256 ∧ (0x80 ||| k) &&& 0x80 = 0x80 := by decide

theorem moveto_byte_any (n : Nat) :
    0x80 ≤ 0x80 ||| (n % 256) ∧ 0x80 ||| (n % 256) < 256 ∧
    (0x80 ||| (n % 256)) &&& 0x80 = 0x80 :=
  set_address_byte (n % 256) (Nat.mod_lt _ (by decide))

/-- C14 (no bounds check in `lcd_moveto`).  For every row and column, in either
build and from every state, `lcd_moveto row col` is exactly one `lcd_writecommand`, of the
byte `0x80 | ((row*0x40 + col) mod 256)`; that byte has its high bit set whatever the
arguments; in the fixed-delay build the display sees exactly that one command byte,
Register-Select low. -/
theorem lcd_moveto_unchecked (useBusyFlag : Bool) (row col : Nat) (m : MCU) :
    lcd_moveto useBusyFlag row col m
      = lcd_writecommand useBusyFlag (0x80 ||| ((row * 0x40 + col) % 256)) m ∧
    0x80 ≤ 0x80 ||| ((row * 0x40 + col) % 256) ∧
    0x80 ||| ((row * 0x40 + col) % 256) < 256 ∧
    (0x80 ||| ((row * 0x40 + col) % 256)) &&& 0x80 = 0x80 ∧
    (∃ m2, lcd_moveto false row col m = .ok m2 ∧
      observe m (since m m2) = byteItems false (0x80 ||| ((row * 0x40 + col) % 256))) := by
  obtain ⟨h1, h2, h3⟩ := moveto_byte_any (row * 0x40 + col)
  refine ⟨rfl, h1, h2, h3, ?_⟩
  obtain ⟨m2, hm, hs⟩ := sees_writecommand _ h2 m
  exact ⟨m2, hm, hs.observe⟩

set_option maxRecDepth 100000 in
theorem nibbles_of_byte : ∀ x < 256,
    x >>> 4 < 16 ∧ x &&& 0x0F < 16 ∧ (x >>> 4) * 16 + (x &&& 0x0F) = x := by decide

/-- C16 (byte reassembly).  For every byte `x` and every state, the display latches two
numbers during `lcd_writebyte x`, `n1 = x >> 4` at the first Enable pulse and `n2 = x & 0x0F`
at the second; both are below 16 and `n1*16 + n2 = x`, so a display that reassembles high
nibble first receives `x`, and two bytes that latch the same pair are equal. -/
theorem lcd_writebyte_reassembles (x : Nat) (hx : x < 256) (m : MCU) :
    latched (observe m (since m (lcd_writebyte x m))) = [x >>> 4, x &&& 0x0F] ∧
    x >>> 4 < 16 ∧ x &&& 0x0F < 16 ∧ (x >>> 4) * 16 + (x &&& 0x0F) = x ∧
    (∀ y, y < 256 →
      latched (observe m (since m (lcd_writebyte y m)))
        = latched (observe m (since m (lcd_writebyte x m))) → y = x) := by
  have hl : ∀ z, z < 256 →
      latched (observe m (since m (lcd_writebyte z m))) = [z >>> 4, z &&& 0x0F] := by
    intro z hz
    rw [(sees_writebyte z hz m).observe]
    rfl
  obtain ⟨h1, h2, h3⟩ := nibbles_of_byte x hx
  refine ⟨hl x hx, h1, h2, h3, ?_⟩
  intro y hy h
  rw [hl x hx, hl y hy] at h
  obtain ⟨_, _, h4⟩ := nibbles_of_byte y hy
  simp only [List.cons.injEq, and_true] at h
  rw [← h3, ← h4, h.1, h.2]

theorem lcd_writebyte_reassembles_witness :
    (0xA5 : Nat) < 256 ∧
    latched (observe reset (since reset (lcd_writebyte 0xA5 reset))) = [0xA, 0x5] ∧
    0xA * 16 + 0x5 = 0xA5 :=
  ⟨by decide, (lcd_writebyte_reassembles 0xA5 (by decide) reset).1,
    (lcd_writebyte_reassembles 0xA5 (by decide) reset).2.2.2.1⟩

/-- C18 (the low four bits of the argument are ignored).  For all bytes `x`, `y` with the
same high four bits and every state, `lcd_writenibble x` and `lcd_writenibble y` give the
same state, log of stores included; afterwards the data lines `PORTD[7:4]` hold `x >> 4`,
which is also the number the display latches. -/
theorem lcd_writenibble_high_bits_only (x y : Nat) (hx : x < 256)
    (h : x &&& 0xF0 = y &&& 0xF0) (m : MCU) :
    lcd_writenibble x m = lcd_writenibble y m ∧
    since m (lcd_writenibble x m) = since m (lcd_writenibble y m) ∧
    datalines (lcd_writenibble x m).PORTD = x >>> 4 ∧
    latched (observe m (since m (lcd_writenibble x m))) = [x >>> 4] := by
  have he : lcd_writenibble x m = lcd_writenibble y m := by
    simp only [lcd_writenibble, LCD_Data_D, h]
  refine ⟨he, by rw [he], ?_, ?_⟩
  · rw [lcd_writenibble_PORTD, ← hi_nibble_lt x hx]
    simp +ground [datalines, LCD_Data_D, and_or_distrib_right, Nat.and_assoc]
  · rw [(sees_writenibble x m).observe, hi_nibble_lt x hx]
    rfl

theorem lcd_writenibble_high_bits_only_witness :
    (0x30 : Nat) < 256 ∧ 0x30 &&& 0xF0 = 0x3F &&& 0xF0 ∧
    lcd_writenibble 0x30 reset = lcd_writenibble 0x3F reset ∧
    datalines (lcd_writenibble 0x30 reset).PORTD = 3 :=
  ⟨by decide, by decide,
    (lcd_writenibble_high_bits_only 0x30 0x3F (by decide) (by decide) reset).1,
    (lcd_writenibble_high_bits_only 0x30 0x3F (by decide) (by decide) reset).2.2.1⟩

/-! ## Dispatch order and settling -/

theorem dispatch_eq (rs : Bool) (x : Nat) (m : MCU) :
    dispatch false rs x m
      = .ok (_delay_ms 2 (lcd_writebyte x (setPORTB (selectStore rs m.PORTB) m))) := by
  cases rs <;> rfl

theorem sees_dispatch (rs : Bool) (x : Nat) (hx : x < 256) (m : MCU) :
    SeesR m (dispatch false rs x m) (byteItems rs x) := by
  cases rs
  · simp only [dispatch, Bool.false_eq_true, if_false]
    exact sees_writecommand x hx m
  · simp only [dispatch, if_true]
    exact sees_writedata x hx m

theorem regsel_selectStore (rs : Bool) (pb : Nat) : regsel (selectStore rs pb) = rs := by
  cases rs
  · exact regsel_clear pb
  · simp +ground [selectStore, regsel, LCD_RS, PB4, and_or_distrib_right, or_eq_zero_iff]

/-- C12 (dispatch order and settling, fixed-delay build).  For every byte `x` and every
state, `lcd_writecommand x` (`rs = false`) and `lcd_writedata x` (`rs = true`) return after
exactly these steps: first the store that puts Register-Select at `rs`, before any store
that raises Enable; then the twelve stores of one byte transfer of `x`; last one wait of
2 ms, after the final fall of Enable, with no store after it.  The display sees the two
nibbles of `x` and then the wait, so between the pulses of any two consecutive bytes there
is a wait of 2 ms. -/
theorem dispatch_order_and_settling (rs : Bool) (x : Nat) (hx : x < 256) (m : MCU) :
    ∃ m2, dispatch false rs x m = .ok m2 ∧
      since m m2 = dispatchSteps rs x m.PORTB m.PORTD ∧
      regsel (selectStore rs m.PORTB) = rs ∧
      since (setPORTB (selectStore rs m.PORTB) m)
          (lcd_writebyte x (setPORTB (selectStore rs m.PORTB) m))
        = ((since m m2).drop 1).take 12 ∧
      observe m (since m m2) = byteItems rs x ∧
      (∀ rs2 y, y < 256 → ∃ m3, dispatch false rs2 y m2 = .ok m3 ∧
        observe m (since m m3) = byteItems rs x ++ byteItems rs2 y) := by
  have ht : (_delay_ms 2 (lcd_writebyte x (setPORTB (selectStore rs m.PORTB) m))).trace
      = m.trace ++ dispatchSteps rs x m.PORTB m.PORTD := by
    simp only [_delay_ms, lcd_writebyte_trace, setPORTB, List.append_assoc,
      List.singleton_append, List.cons_append, List.nil_append, dispatchSteps]
  obtain ⟨m2, hm, hs⟩ := sees_dispatch rs x hx m
  have hm2 : m2 = _delay_ms 2 (lcd_writebyte x (setPORTB (selectStore rs m.PORTB) m)) := by
    have h := dispatch_eq rs x m
    rw [hm] at h
    cases h
    rfl
  subst hm2
  refine ⟨_, hm, since_of_trace ht, regsel_selectStore rs m.PORTB, ?_, hs.observe, ?_⟩
  · rw [since_of_trace ht, since_of_trace (lcd_writebyte_trace x _)]
    rfl
  · intro rs2 y hy
    obtain ⟨m3, hm3, hs3⟩ := sees_dispatch rs2 y hy
      (_delay_ms 2 (lcd_writebyte x (setPORTB (selectStore rs m.PORTB) m)))
    exact ⟨m3, hm3, (hs.andThen hs3).observe⟩

theorem dispatch_order_and_settling_witness :
    (0x41 : Nat) < 256 ∧
    ∃ m2, lcd_writedata false 0x41 reset = .ok m2 ∧
      observe reset (since reset m2) = [nib true 4, nib true 1, Item.wait 2000] ∧
      (since reset m2).getLast? = some (Event.delay 2000) := by
  obtain ⟨m2, h1, h2, _, _, h5, _⟩ := dispatch_order_and_settling true 0x41 (by decide) reset
  exact ⟨by decide, m2, h1, h5, by rw [h2]; rfl⟩

/-! ## Enable pulse shape -/

/-- C13 (Enable pulse shape).  For every argument and every state, the stores of
`lcd_writenibble x` are, in order: two stores to `PORTD`, the second leaving on the data
lines the value they keep to the end; one store to `PORTB` with Read/Write low and Enable
low; two consecutive stores to `PORTB` with Enable high; one store to `PORTB` with Enable
low again.  No store to `PORTD` lies between the rise and the fall and Read/Write is low in
all four stores to `PORTB`; the display sees exactly one Enable pulse. -/
theorem lcd_writenibble_pulse_shape (x : Nat) (m : MCU) :
    since m (lcd_writenibble x m) =
      [Event.write Reg.PORTD (m.PORTD &&& 0x0F),
       Event.write Reg.PORTD ((m.PORTD &&& 0x0F) ||| (x &&& 0xF0)),
       Event.write Reg.PORTB (m.PORTB &&& 0xF3),
       Event.write Reg.PORTB ((m.PORTB &&& 0xF3) ||| 0x04),
       Event.write Reg.PORTB ((m.PORTB &&& 0xF3) ||| 0x04),
       Event.write Reg.PORTB (m.PORTB &&& 0xF3)] ∧
    (lcd_writenibble x m).PORTD = (m.PORTD &&& 0x0F) ||| (x &&& 0xF0) ∧
    datalines ((m.PORTD &&& 0x0F) ||| (x &&& 0xF0)) = (x &&& 0xF0) >>> 4 ∧
    enable (m.PORTB &&& 0xF3) = false ∧ readwrite (m.PORTB &&& 0xF3) = false ∧
    enable ((m.PORTB &&& 0xF3) ||| 0x04) = true ∧
    readwrite ((m.PORTB &&& 0xF3) ||| 0x04) = false ∧
    regsel ((m.PORTB &&& 0xF3) ||| 0x04) = regsel m.PORTB ∧
    observe m (since m (lcd_writenibble x m))
      = [nib (regsel m.PORTB) ((x &&& 0xF0) >>> 4)] ∧
    (pulsesOf (observe m (since m (lcd_writenibble x m)))).length = 1 := by
  have hs := (sees_writenibble x m).observe
  refine ⟨since_of_trace (lcd_writenibble_trace x m), lcd_writenibble_PORTD x m, ?_, ?_, ?_, ?_,
    ?_, ?_, hs, by rw [hs]; rfl⟩
  · simp +ground [datalines, LCD_Data_D, and_or_distrib_right, Nat.and_assoc]
  · simp +ground [enable, LCD_E, PB2, Nat.and_assoc]
  · simp +ground [readwrite, LCD_RW, PB3, Nat.and_assoc]
  · simp +ground [enable, LCD_E, PB2, and_or_distrib_right, Nat.and_assoc, or_eq_zero_iff]
  · simp +ground [readwrite, LCD_RW, PB3, and_or_distrib_right, Nat.and_assoc]
  · simp +ground [regsel, LCD_RS, PB4, and_or_distrib_right, Nat.and_assoc]

/-! ## Data direction and bus contention -/

theorem busStates_append (b : Bus) (e1 e2 : List Event) :
    busStates b (e1 ++ e2) = busStates b e1 ++ busStates (e1.foldl Bus.step b) e2 := by
  induction e1 generalizing b with
  | nil => rfl
  | cons e es ih => simp [busStates, ih]

theorem Through.stay {Q : Bus → Prop} {m : MCU} (h : Q m.bus) : Through Q m m :=
  ⟨h, [], by simp, rfl, by simp [busStates]⟩

theorem Through.go {Q : Bus → Prop} {a b c : MCU} (h1 : Through Q a b) (h2 : Through Q b c) :
    Through Q a c := by
  obtain ⟨_, e1, ht1, hf1, hq1⟩ := h1
  obtain ⟨hc, e2, ht2, hf2, hq2⟩ := h2
  refine ⟨hc, e1 ++ e2, by rw [ht2, ht1, List.append_assoc], by rw [List.foldl_append, hf1, hf2],
    ?_⟩
  intro s hs
  rw [busStates_append, hf1] at hs
  rcases List.mem_append.mp hs with h | h
  · exact hq1 s h
  · exact hq2 s h

theorem Through.mono {Q Q2 : Bus → Prop} {m m2 : MCU} (hq : ∀ b, Q b → Q2 b)
    (h : Through Q m m2) : Through Q2 m m2 := by
  obtain ⟨h1, evs, ht, hf, hs⟩ := h
  exact ⟨hq _ h1, evs, ht, hf, fun s hm => hq s (hs s hm)⟩

theorem Through.thenRun {Q : Bus → Prop} {m : MCU} {r : Run} {g : MCU → Run}
    (h1 : Through Q m r.state) (h2 : ∀ m1, r = .ok m1 → Through Q m1 (g m1).state) :
    Through Q m (Run.state (r.bind g)) := by
  cases r with
  | error e => exact h1
  | ok m1 => exact h1.go (h2 m1 rfl)

theorem through_setPORTB {Q : Bus → Prop} (v : Nat) (m : MCU) (hq : Q ⟨v, m.DDRD⟩) :
    Through Q m (setPORTB v m) :=
  ⟨hq, [Event.write Reg.PORTB v], rfl, rfl, by simpa [busStates, Bus.step, MCU.bus] using hq⟩

theorem through_setDDRD {Q : Bus → Prop} (v : Nat) (m : MCU) (hq : Q ⟨m.PORTB, v⟩) :
    Through Q m (setDDRD v m) :=
  ⟨hq, [Event.write Reg.DDRD v], rfl, rfl, by simpa [busStates, Bus.step, MCU.bus] using hq⟩

theorem through_setPORTD {Q : Bus → Prop} (v : Nat) (m : MCU) (hq : Q m.bus) :
    Through Q m (setPORTD v m) :=
  ⟨hq, [Event.write Reg.PORTD v], rfl, rfl, by simpa [busStates, Bus.step] using hq⟩

theorem through_setDDRB {Q : Bus → Prop} (v : Nat) (m : MCU) (hq : Q m.bus) :
    Through Q m (setDDRB v m) :=
  ⟨hq, [Event.write Reg.DDRB v], rfl, rfl, by simpa [busStates, Bus.step] using hq⟩

theorem through_delay_us {Q : Bus → Prop} (n : Nat) (m : MCU) (hq : Q m.bus) :
    Through Q m (_delay_us n m) :=
  ⟨hq, [Event.delay n], rfl, rfl, by simpa [busStates, Bus.step] using hq⟩

theorem through_delay_ms {Q : Bus → Prop} (n : Nat) (m : MCU) (hq : Q m.bus) :
    Through Q m (_delay_ms n m) :=
  ⟨hq, [Event.delay (1000 * n)], rfl, rfl, by simpa [busStates, Bus.step] using hq⟩

theorem through_read {Q : Bus → Prop} (v : Nat) (pind : List Nat) (m : MCU) (hq : Q m.bus) :
    Through Q m { m with PIND := pind, trace := m.trace ++ [Event.read v] } :=
  ⟨hq, [Event.read v], rfl, rfl, by simpa [busStates, Bus.step] using hq⟩

theorem calm_of_enable_low {p d : Nat} (h : enable p = false) : Calm ⟨p, d⟩ := by
  simp [Calm, contention, h]

theorem calm_of_readwrite_low {p d : Nat} (h : readwrite p = false) : Calm ⟨p, d⟩ := by
  simp [Calm, contention, h]

theorem calm_of_quiet (b : Bus) (h : Quiet b) : Calm b := by
  unfold Calm contention
  cases he : enable b.PORTB
  · simp
  · simp [h he]

theorem quiet_of_input {p d : Nat} (h : d &&& LCD_Data_D = 0) : Quiet ⟨p, d⟩ :=
  fun _ => h

theorem quiet_of_enable_low {p d : Nat} (h : enable p = false) : Quiet ⟨p, d⟩ := by
  intro he
  rw [h] at he
  cases he

theorem enable_clear_rw_e (p : Nat) : enable (p &&& compl8 (LCD_RW ||| LCD_E)) = false := by
  simp +ground [enable, compl8, LCD_RW, LCD_E, PB2, PB3, Nat.and_assoc]

theorem enable_set_rs (p : Nat) : enable (p ||| LCD_RS) = enable p := by
  simp +ground [enable, LCD_E, LCD_RS, PB2, PB4, and_or_distrib_right]

theorem enable_clear_e_rs (p : Nat) : enable (p &&& compl8 (LCD_E ||| LCD_RS)) = false := by
  simp +ground [enable, compl8, LCD_E, LCD_RS, PB2, PB4, Nat.and_assoc]

theorem enable_set_rw (p : Nat) : enable (p ||| LCD_RW) = enable p := by
  simp +ground [enable, LCD_E, LCD_RW, PB2, PB3, and_or_distrib_right]

theorem readwrite_set_rw (p : Nat) : readwrite (p ||| LCD_RW) = true := by
  simp +ground [readwrite, LCD_RW, PB3, and_or_distrib_right, or_eq_zero_iff]

theorem input_clear (d : Nat) : (d &&& compl8 LCD_Data_D) &&& LCD_Data_D = 0 := by
  simp +ground [compl8, LCD_Data_D, Nat.and_assoc]

theorem output_set (d : Nat) : (d ||| LCD_Data_D) &&& LCD_Data_D = LCD_Data_D := by
  simp +ground [LCD_Data_D, and_or_distrib_right]
  apply Nat.eq_of_testBit_eq
  intro i
  simp only [Nat.testBit_or, Nat.testBit_and]
  cases Nat.testBit 240 i <;> simp

theorem calm_select {p d : Nat} (rs : Bool) (h : Calm ⟨p, d⟩) :
    Calm ⟨selectStore rs p, d⟩ := by
  unfold Calm contention at *
  cases rs
  · simpa [selectStore, enable_clear_rs, readwrite_and p LCD_RS (by decide)] using h
  · simpa [selectStore, enable_set_rs, readwrite_or p LCD_RS (by decide)] using h

theorem calm_writenibble (x : Nat) (m : MCU) (h : Calm m.bus) :
    Through Calm m (lcd_writenibble x m) := by
  unfold lcd_writenibble
  dsimp only
  refine Through.go (Through.go (Through.go (Through.go (Through.go
    (through_setPORTD _ _ h) (through_setPORTD _ _ h))
    (through_setPORTB _ _ (calm_of_enable_low (enable_clear_rw_e _))))
    (through_setPORTB _ _ (calm_of_readwrite_low ?_)))
    (through_setPORTB _ _ (calm_of_readwrite_low ?_)))
    (through_setPORTB _ _ (calm_of_enable_low (enable_clear_e _)))
  · simp only [setPORTB, readwrite_set_e, readwrite_clear_rw_e]
  · simp only [setPORTB, readwrite_set_e, readwrite_clear_rw_e]

theorem calm_writebyte (x : Nat) (m : MCU) (h : Calm m.bus) :
    Through Calm m (lcd_writebyte x m) := by
  have h1 := calm_writenibble x m h
  exact h1.go (calm_writenibble _ _ h1.1)

theorem quiet_wait_body (v : Nat) (pind : List Nat) (m : MCU)
    (h : m.DDRD &&& LCD_Data_D = 0) : Through Quiet m (lcd_wait_body v pind m) := by
  unfold lcd_wait_body
  dsimp only
  exact Through.go (Through.go (Through.go (Through.go (Through.go
    (through_setPORTB _ _ (quiet_of_input h)) (through_delay_us _ _ (quiet_of_input h)))
    (through_read _ _ _ (quiet_of_input h)))
    (through_setPORTB _ _ (quiet_of_input h)))
    (through_setPORTB _ _ (quiet_of_input h)))
    (through_setPORTB _ _ (quiet_of_input h))

theorem quiet_wait_loop (pind : List Nat) :
    ∀ m, m.DDRD &&& LCD_Data_D = 0 →
      Through Quiet m (lcd_wait_loop pind m).state ∧
      (lcd_wait_loop pind m).state.DDRD = m.DDRD := by
  induction pind with
  | nil =>
    intro m h
    exact ⟨(through_setPORTB _ _ (quiet_of_input h)).go
      (through_delay_us _ _ (quiet_of_input h)), rfl⟩
  | cons v pind ih =>
    intro m h
    have h1 := quiet_wait_body v pind m h
    have hd : (lcd_wait_body v pind m).DDRD = m.DDRD := (lcd_wait_body_regs v pind m).2.1
    unfold lcd_wait_loop
    dsimp only
    split
    · obtain ⟨h2, h3⟩ := ih (lcd_wait_body v pind m) (by rw [hd]; exact h)
      exact ⟨h1.go h2, by rw [h3, hd]⟩
    · exact ⟨h1, hd⟩

/-- From the store that makes the data pins inputs on, `lcd_wait` in the busy-flag build
keeps them inputs whenever Enable is high. -/
theorem quiet_wait_busy (m : MCU) :
    Through Quiet (setDDRD (m.DDRD &&& compl8 LCD_Data_D)
      (setPORTD (m.PORTD &&& compl8 LCD_Data_D) m)) (lcd_wait true m).state := by
  have hi := input_clear m.DDRD
  have h3 := through_setPORTB (m.PORTB &&& compl8 (LCD_E ||| LCD_RS))
    (setDDRD (m.DDRD &&& compl8 LCD_Data_D) (setPORTD (m.PORTD &&& compl8 LCD_Data_D) m))
    (quiet_of_input hi)
  have h4 := h3.go (through_setPORTB ((m.PORTB &&& compl8 (LCD_E ||| LCD_RS)) ||| LCD_RW) _
    (quiet_of_input hi))
  obtain ⟨h5, h6⟩ := quiet_wait_loop m.PIND
    (setPORTB ((m.PORTB &&& compl8 (LCD_E ||| LCD_RS)) ||| LCD_RW)
      (setPORTB (m.PORTB &&& compl8 (LCD_E ||| LCD_RS))
        (setDDRD (m.DDRD &&& compl8 LCD_Data_D) (setPORTD (m.PORTD &&& compl8 LCD_Data_D) m))))
    hi
  unfold lcd_wait
  simp only [if_true, setPORTB, setPORTD, setDDRD] at h4 h5 ⊢
  refine Through.thenRun (h4.go h5) ?_
  intro m1 hm1
  exact through_setDDRD _ _ (quiet_of_enable_low (wait_loop_idle _ _ m1 hm1))

theorem calm_wait (useBusyFlag : Bool) (m : MCU) (h : Calm m.bus) :
    Through Calm m (lcd_wait useBusyFlag m).state := by
  cases useBusyFlag
  · exact through_delay_ms 2 m h
  · have h1 := through_setPORTD (m.PORTD &&& compl8 LCD_Data_D) m h
    have h2 := h1.go (through_setDDRD (m.DDRD &&& compl8 LCD_Data_D) _
      (calm_of_quiet _ (quiet_of_input (input_clear m.DDRD))))
    exact h2.go ((quiet_wait_busy m).mono calm_of_quiet)

theorem calm_dispatch (useBusyFlag : Bool) (rs : Bool) (x : Nat) (m : MCU)
    (h : Calm m.bus) : Through Calm m (dispatch useBusyFlag rs x m).state := by
  have h1 := through_setPORTB (selectStore rs m.PORTB) m (calm_select rs h)
  have h2 := h1.go (calm_writebyte x _ h1.1)
  have h3 := h2.go (calm_wait useBusyFlag _ h2.1)
  cases rs
  · simp only [dispatch, Bool.false_eq_true, if_false]
    exact h3
  · simp only [dispatch, if_true]
    exact h3

theorem calm_writecommand (useBusyFlag : Bool) (x : Nat) (m : MCU) (h : Calm m.bus) :
    Through Calm m (lcd_writecommand useBusyFlag x m).state := by
  have h1 := calm_dispatch useBusyFlag false x m h
  simpa only [dispatch, Bool.false_eq_true, if_false] using h1

theorem calm_writedata (useBusyFlag : Bool) (x : Nat) (m : MCU) (h : Calm m.bus) :
    Through Calm m (lcd_writedata useBusyFlag x m).state := by
  have h1 := calm_dispatch useBusyFlag true x m h
  simpa only [dispatch, if_true] using h1

theorem calm_stringout_P (useBusyFlag : Bool) (s : List Nat) :
    ∀ m, Calm m.bus → Through Calm m (lcd_stringout_P useBusyFlag s m).state := by
  induction s with
  | nil => intro m h; exact Through.stay h
  | cons ch s ih =>
    intro m h
    unfold lcd_stringout_P
    split
    · have h1 := calm_writedata useBusyFlag ch m h
      refine Through.thenRun h1 ?_
      intro m1 hm1
      rw [hm1] at h1
      exact ih m1 h1.1
    · exact Through.stay h

theorem calm_stringout (useBusyFlag : Bool) (str : List Nat) :
    ∀ m, Calm m.bus → Through Calm m (lcd_stringout useBusyFlag str m).state := by
  induction str with
  | nil => intro m h; exact Through.stay h
  | cons b str ih =>
    intro m h
    unfold lcd_stringout
    dsimp only
    split
    · have h1 := calm_writedata useBusyFlag (toUChar (toSChar b)) m h
      refine Through.thenRun h1 ?_
      intro m1 hm1
      rw [hm1] at h1
      exact ih m1 h1.1
    · exact Through.stay h

theorem calm_init (useBusyFlag : Bool) (m : MCU) (he : enable m.PORTB = false) :
    Through Calm m (lcd_init useBusyFlag m).state := by
  have s1 := through_setDDRD (Q := Calm) (m.DDRD ||| LCD_Data_D) m (calm_of_enable_low he)
  have s2 := s1.go (through_setDDRB (m.DDRB ||| LCD_Bits) _ s1.1)
  have s3 := s2.go (through_setPORTB (m.PORTB &&& compl8 LCD_RS) _
    (calm_of_enable_low ((enable_clear_rs m.PORTB).trans he)))
  have s4 := s3.go (through_delay_ms 15 _ s3.1)
  have s5 := s4.go (calm_writenibble 0x30 _ s4.1)
  have s6 := s5.go (through_delay_ms 5 _ s5.1)
  have s7 := s6.go (calm_writenibble 0x30 _ s6.1)
  have s8 := s7.go (through_delay_us 120 _ s7.1)
  have s9 := s8.go (calm_writenibble 0x30 _ s8.1)
  have s10 := s9.go (through_delay_ms 2 _ s9.1)
  have s11 := s10.go (calm_writenibble 0x20 _ s10.1)
  have s12 := s11.go (through_delay_ms 2 _ s11.1)
  have s13 := s12.go (calm_writecommand useBusyFlag 0x28 _ s12.1)
  unfold lcd_init
  simp only [setDDRD, setDDRB] at s13 ⊢
  refine Through.thenRun s13 ?_
  intro m1 hm1
  rw [hm1] at s13
  exact calm_writecommand useBusyFlag 0x0f m1 s13.1

/-- Every operation entered with Enable low goes through states without bus contention
only, whether it returns or not. -/
theorem calm_op (useBusyFlag : Bool) (op : Op) (m : MCU) (he : enable m.PORTB = false) :
    Through Calm m (op.run useBusyFlag m).state := by
  have h : Calm m.bus := calm_of_enable_low he
  cases op with
  | lcd_init => exact calm_init useBusyFlag m he
  | lcd_moveto row col => exact calm_writecommand useBusyFlag _ m h
  | lcd_stringout str => exact calm_stringout useBusyFlag str m h
  | lcd_stringout_P s => exact calm_stringout_P useBusyFlag s m h
  | lcd_writecommand x => exact calm_writecommand useBusyFlag x m h
  | lcd_writedata x => exact calm_writedata useBusyFlag x m h
  | lcd_writebyte x => exact calm_writebyte x m h
  | lcd_writenibble x => exact calm_writenibble x m h
  | lcd_wait => exact calm_wait useBusyFlag m h

theorem calm_runAll (useBusyFlag : Bool) (ops : List Op) :
    ∀ m, enable m.PORTB = false → Through Calm m (runAll useBusyFlag ops m).state := by
  induction ops with
  | nil => intro m he; exact Through.stay (calm_of_enable_low he)
  | cons op ops ih =>
    intro m he
    unfold runAll
    refine Through.thenRun (calm_op useBusyFlag op m he) ?_
    intro m1 hm1
    exact ih m1 (op_idle useBusyFlag op m m1 he hm1)

theorem states_of_through {Q : Bus → Prop} {m m2 : MCU} (h : Through Q m m2) :
    ∀ s ∈ busStates m.bus (since m m2), Q s := by
  obtain ⟨_, evs, ht, _, hq⟩ := h
  rw [since_of_trace ht]
  exact hq

theorem wait_loop_readwrite (pind : List Nat) :
    ∀ m m2, lcd_wait_loop pind m = .ok m2 → readwrite m2.PORTB = readwrite m.PORTB := by
  induction pind with
  | nil => intro m m2 h; simp [lcd_wait_loop] at h
  | cons v pind ih =>
    intro m m2 h
    have hb : readwrite (lcd_wait_body v pind m).PORTB = readwrite m.PORTB := by
      rw [lcd_wait_body_PORTB, show (0xFB : Nat) = compl8 LCD_E from rfl, readwrite_clear_e]
    unfold lcd_wait_loop at h
    dsimp only at h
    split at h
    · rw [ih _ _ h, hb]
    · cases h
      exact hb

/-- How `lcd_wait` returns in the busy-flag build: the polling loop returns, then the data
pins are made outputs again. -/
theorem wait_busy_returns (m m2 : MCU) (h : lcd_wait true m = .ok m2) :
    ∃ m1, lcd_wait_loop m.PIND
        (setPORTB ((m.PORTB &&& compl8 (LCD_E ||| LCD_RS)) ||| LCD_RW)
          (setPORTB (m.PORTB &&& compl8 (LCD_E ||| LCD_RS))
            (setDDRD (m.DDRD &&& compl8 LCD_Data_D)
              (setPORTD (m.PORTD &&& compl8 LCD_Data_D) m)))) = .ok m1 ∧
      m2 = setDDRD (m1.DDRD ||| LCD_Data_D) m1 := by
  unfold lcd_wait at h
  simp only [if_true] at h
  obtain ⟨m1, h1, h2⟩ := bind_ok h
  cases h2
  exact ⟨m1, h1, rfl⟩

theorem wait_busy_ends (m m2 : MCU) (h : lcd_wait true m = .ok m2) :
    m2.DDRD &&& LCD_Data_D = LCD_Data_D ∧ enable m2.PORTB = false ∧
    readwrite m2.PORTB = true := by
  obtain ⟨m1, h1, rfl⟩ := wait_busy_returns m m2 h
  refine ⟨output_set m1.DDRD, wait_loop_idle _ _ m1 h1, ?_⟩
  have h2 := wait_loop_readwrite _ _ m1 h1
  simp only [setPORTB, setDDRD, readwrite_set_rw] at h2
  exact h2

theorem poll_pulse_count (l : List Nat) :
    (pulsesOf (l.flatMap fun b =>
      [Item.wait 1, Item.sample b, Item.pulse [⟨false, true, 0⟩],
        Item.pulse [⟨false, true, 0⟩]])).length = 2 * l.length := by
  induction l with
  | nil => rfl
  | cons b l ih =>
    simp only [List.flatMap_cons, pulsesOf, List.filterMap_append, List.length_append,
      List.length_cons] at ih ⊢
    rw [ih]
    simp [List.filterMap_cons]
    omega

/-- C15 (data direction around the busy-flag poll).  In the `USE_BUSY_FLAG` build, from every
state and for every sequence of `PIND` answers that ends the poll (`pre` all busy, then `v`
not busy): `lcd_wait` returns; its first two steps are stores to `PORTD` and to `DDRD`, the
second making `DDRD[7:4]` inputs, so before any store to `PORTB` and hence before the first
rise of Enable; in every state reached after that store, whenever Enable is high the pins
`DDRD[7:4]` are all inputs, which covers each of the `2 * (pre.length + 1)` Enable pulses of
the poll loop; on return `DDRD[7:4]` are all outputs again and Enable is low. -/
theorem lcd_wait_direction (m : MCU) (pre : List Nat) (v : Nat) (rest : List Nat)
    (hpre : ∀ b ∈ pre, b &&& LCD_Status ≠ 0) (hv : v &&& LCD_Status = 0)
    (hp : m.PIND = pre ++ v :: rest) :
    ∃ m2, lcd_wait true m = .ok m2 ∧
      (since m m2).take 2
        = [Event.write Reg.PORTD (m.PORTD &&& compl8 LCD_Data_D),
           Event.write Reg.DDRD (m.DDRD &&& compl8 LCD_Data_D)] ∧
      (m.DDRD &&& compl8 LCD_Data_D) &&& LCD_Data_D = 0 ∧
      (∀ s ∈ busStates ⟨m.PORTB, m.DDRD &&& compl8 LCD_Data_D⟩ ((since m m2).drop 2),
        enable s.PORTB = true → s.DDRD &&& LCD_Data_D = 0) ∧
      (pulsesOf (observe m (since m m2))).length = 2 * (pre.length + 1) ∧
      m2.DDRD &&& LCD_Data_D = LCD_Data_D ∧ enable m2.PORTB = false := by
  obtain ⟨m2, hm, _, hs⟩ := sees_wait_busy m pre v rest hpre hv hp
  obtain ⟨hq, evs, ht, _, hst⟩ := quiet_wait_busy m
  rw [hm] at hq ht
  have ht2 : m2.trace = m.trace ++ ([Event.write Reg.PORTD (m.PORTD &&& compl8 LCD_Data_D),
      Event.write Reg.DDRD (m.DDRD &&& compl8 LCD_Data_D)] ++ evs) := by
    rw [show (Run.state (Except.ok m2)).trace = m2.trace from rfl] at ht
    rw [ht]
    simp [setDDRD, setPORTD]
  obtain ⟨h1, h2, _⟩ := wait_busy_ends m m2 hm
  refine ⟨m2, hm, ?_, input_clear m.DDRD, ?_, ?_, h1, h2⟩
  · rw [since_of_trace ht2]
    rfl
  · rw [since_of_trace ht2]
    exact hst
  · rw [hs.observe, poll_pulse_count]
    simp

theorem lcd_wait_direction_witness :
    (∀ b ∈ [0x80, 0xFF], b &&& LCD_Status ≠ 0) ∧ 0x7F &&& LCD_Status = 0 ∧
    ∃ m2, lcd_wait true ⟨0, 0, 0, 0xFF, [0x80, 0xFF, 0x7F, 0x80], []⟩ = .ok m2 ∧
      (∀ s ∈ busStates ⟨0, 0x0F⟩
          ((since ⟨0, 0, 0, 0xFF, [0x80, 0xFF, 0x7F, 0x80], []⟩ m2).drop 2),
        enable s.PORTB = true → s.DDRD &&& LCD_Data_D = 0) ∧
      m2.DDRD &&& LCD_Data_D = LCD_Data_D ∧ enable m2.PORTB = false := by
  refine ⟨by decide, by decide, ?_⟩
  obtain ⟨m2, h1, _, _, h4, _, h6, h7⟩ := lcd_wait_direction
    ⟨0, 0, 0, 0xFF, [0x80, 0xFF, 0x7F, 0x80], []⟩ [0x80, 0xFF] 0x7F [0x80]
    (by decide) (by decide) rfl
  exact ⟨m2, h1, h4, h6, h7⟩

/-- C17 (no bus contention).  In either build, so in the `USE_BUSY_FLAG` build, starting from
any state in which Enable is low and for any sequence of driver operations, returning or
not: in every state reached, Enable is not high while Read/Write is high and a data pin
`DDRD[7:4]` is an output.  In particular `lcd_wait` returns with Read/Write high, and the
single Enable pulse of a following `lcd_writenibble` has Read/Write low from its rise to its
fall. -/
theorem no_bus_contention (useBusyFlag : Bool) (ops : List Op) (m : MCU)
    (he : enable m.PORTB = false) :
    (∀ s ∈ busStates m.bus (since m (runAll useBusyFlag ops m).state), contention s = false) ∧
    (∀ m1, lcd_wait true m = .ok m1 → readwrite m1.PORTB = true ∧
      ∀ x, observe m1 (since m1 (lcd_writenibble x m1))
        = [Item.pulse [⟨regsel m1.PORTB, false, (x &&& 0xF0) >>> 4⟩,
            ⟨regsel m1.PORTB, false, (x &&& 0xF0) >>> 4⟩]]) := by
  refine ⟨states_of_through (calm_runAll useBusyFlag ops m he), ?_⟩
  intro m1 h1
  exact ⟨(wait_busy_ends m m1 h1).2.2, fun x => (sees_writenibble x m1).observe⟩

theorem no_bus_contention_witness :
    enable (0xEB : Nat) = false ∧
    ∀ s ∈ busStates ⟨0xEB, 0xFF⟩
        (since ⟨0xEB, 0, 0, 0xFF, [0x80, 0, 0], []⟩
          (runAll true [Op.lcd_wait, Op.lcd_writedata 0x41, Op.lcd_moveto 1 0]
            ⟨0xEB, 0, 0, 0xFF, [0x80, 0, 0], []⟩).state),
      contention s = false :=
  ⟨by decide, (no_bus_contention true [Op.lcd_wait, Op.lcd_writedata 0x41, Op.lcd_moveto 1 0]
    ⟨0xEB, 0, 0, 0xFF, [0x80, 0, 0], []⟩ (by decide)).1⟩

end LCD
